import Mathlib

/-!
Verification of the ss14-paperwork document pipeline.

This file gives a shallow embedding of the Python tools under `tools/`
(`category_utils.py`, `render_ftl.py`, `render_starlight.py`,
`verify_bundle.py`) and proves properties of the embedded code.

Conventions of the embedding:
* Python `str` is Lean `String`; operations work on `String.data` (`List Char`),
  which matches CPython semantics on the code-point level.
* Python `set`/`dict` mutable state is passed explicitly: sets of issued names
  become `List String` (membership only), dicts become association lists.
* Python functions that raise become `Except PyExc`.
* Filesystem trees are lists of files (root-relative path segments plus an
  optional content; `none` models an unreadable/vanished file).
-/

deriving instance DecidableEq for Except

namespace Paperwork

/-! ### Python string primitives -/

/-- The ASCII whitespace characters recognised by Python's `str.strip` /
regex `\s` for the inputs handled here. -/
def isPySpace (c : Char) : Bool :=
  c = ' ' || c = '\t' || c = '\n' || c = '\r' || c = '\x0b' || c = '\x0c'

/-- Drop matching characters from the end of a list. -/
def dropTrailing (p : Char → Bool) (l : List Char) : List Char :=
  ((l.reverse).dropWhile p).reverse

/-- Python `str.strip()` (no argument: whitespace). -/
def pyStrip (s : String) : String :=
  String.mk (dropTrailing isPySpace (s.data.dropWhile isPySpace))

/-- Python `str.lstrip()`. -/
def pyLstrip (s : String) : String :=
  String.mk (s.data.dropWhile isPySpace)

/-- Python `str.strip('-')` used by `ensure_document_slug`. -/
def pyStripHyphens (s : String) : String :=
  String.mk (dropTrailing (· = '-') (s.data.dropWhile (· = '-')))

/-- Python `str.lower` restricted to the ASCII inputs of this pipeline. -/
def pyLower (s : String) : String :=
  String.mk (s.data.map Char.toLower)

/-- Python `str.startswith`. -/
def pyStartsWith (s pre : String) : Bool :=
  pre.data.isPrefixOf s.data

/-- Python `str.endswith`. -/
def pyEndsWith (s suf : String) : Bool :=
  suf.data.isSuffixOf s.data

/-! ### `tools/category_utils.py` -/

/-- One digit step of `alphabetic_suffix`'s do/while loop, with explicit fuel.
The Python loop runs `value, remainder = divmod(value, 26)` and prepends
`chr(ord("A") + remainder)`, continuing with `value - 1` while `value != 0`.
The loop strictly decreases `value`, so fuel `index + 1` is never exhausted
(`alphaVal_alphaDigitsAux` below depends only on `value < fuel`). -/
def alphaDigitsAux : Nat → Nat → List Nat
  | _, 0 => []
  | value, fuel + 1 =>
    let q := value / 26
    let r := value % 26
    if q = 0 then [r] else alphaDigitsAux (q - 1) fuel ++ [r]

/-- The bijective base-26 digit string (most significant first) computed by
`alphabetic_suffix`. -/
def alphaDigits (index : Nat) : List Nat :=
  alphaDigitsAux index (index + 1)

/-- `alphabetic_suffix(index)`: `chr(ord("A") + remainder)` for each digit.
The Python function raises for `index < 0`; the domain here is `Nat`. -/
def alphabetic_suffix (index : Nat) : String :=
  String.mk ((alphaDigits index).map (fun d => Char.ofNat (65 + d)))

/-- Value of a digit string in bijective base 26 (offset by one); inverse used
to prove injectivity of `alphabetic_suffix`. -/
def alphaVal (l : List Nat) : Nat :=
  l.foldl (fun acc d => acc * 26 + d + 1) 0

theorem alphaVal_append_single (l : List Nat) (d : Nat) :
    alphaVal (l ++ [d]) = alphaVal l * 26 + d + 1 := by
  simp [alphaVal, List.foldl_append]

theorem alphaVal_alphaDigitsAux :
    ∀ fuel value, value < fuel → alphaVal (alphaDigitsAux value fuel) = value + 1 := by
  intro fuel
  induction fuel with
  | zero => intro value h; omega
  | succ f ih =>
    intro value h
    show alphaVal (if value / 26 = 0 then [value % 26]
      else alphaDigitsAux (value / 26 - 1) f ++ [value % 26]) = value + 1
    by_cases hq : value / 26 = 0
    · have : value % 26 = value := by omega
      simp [hq, alphaVal, this]
    · have hub : value / 26 ≤ value := Nat.div_le_self _ _
      have hge : 1 ≤ value / 26 := Nat.one_le_iff_ne_zero.mpr hq
      have hlt : value / 26 - 1 < f := by omega
      rw [if_neg hq, alphaVal_append_single, ih _ hlt]
      have := Nat.div_add_mod value 26
      omega

theorem alphaVal_alphaDigits (index : Nat) :
    alphaVal (alphaDigits index) = index + 1 :=
  alphaVal_alphaDigitsAux (index + 1) index (Nat.lt_succ_self index)

theorem alphaDigitsAux_lt26 :
    ∀ fuel value d, d ∈ alphaDigitsAux value fuel → d < 26 := by
  intro fuel
  induction fuel with
  | zero => intro value d h; simp [alphaDigitsAux] at h
  | succ f ih =>
    intro value d h
    simp only [alphaDigitsAux] at h
    by_cases hq : value / 26 = 0
    · rw [if_pos hq] at h
      simp at h
      omega
    · rw [if_neg hq] at h
      rcases List.mem_append.mp h with h1 | h2
      · exact ih _ _ h1
      · simp at h2; omega

theorem alphaDigits_lt26 (index : Nat) {d : Nat} (h : d ∈ alphaDigits index) : d < 26 :=
  alphaDigitsAux_lt26 _ _ _ h

theorem alphaChar_toNat :
    ∀ d : Fin 26, (Char.ofNat (65 + d.val)).toNat = 65 + d.val := by decide

theorem alphaChar_toLower_toNat :
    ∀ d : Fin 26, (Char.toLower (Char.ofNat (65 + d.val))).toNat = 97 + d.val := by decide

theorem map_inj_of_lt26 {f : Nat → Char}
    (hf : ∀ d1 d2, d1 < 26 → d2 < 26 → f d1 = f d2 → d1 = d2) :
    ∀ l1 l2 : List Nat, (∀ d ∈ l1, d < 26) → (∀ d ∈ l2, d < 26) →
      l1.map f = l2.map f → l1 = l2 := by
  intro l1
  induction l1 with
  | nil => intro l2 _ _ h; cases l2 <;> simp_all
  | cons a as ih =>
    intro l2 h1 h2 h
    cases l2 with
    | nil => simp at h
    | cons b bs =>
      simp only [List.map_cons, List.cons.injEq] at h
      have ha : a = b := hf a b (h1 a (by simp)) (h2 b (by simp)) h.1
      have hb : as = bs := ih bs (fun d hd => h1 d (by simp [hd]))
        (fun d hd => h2 d (by simp [hd])) h.2
      rw [ha, hb]

theorem alphabetic_suffix_injective :
    Function.Injective alphabetic_suffix := by
  intro m n h
  have hmk : (alphaDigits m).map (fun d => Char.ofNat (65 + d)) =
      (alphaDigits n).map (fun d => Char.ofNat (65 + d)) := by
    have := congrArg String.data h
    simpa [alphabetic_suffix] using this
  have hdig : alphaDigits m = alphaDigits n := by
    refine map_inj_of_lt26 ?_ _ _ (fun d hd => alphaDigits_lt26 m hd)
      (fun d hd => alphaDigits_lt26 n hd) hmk
    intro d1 d2 h1 h2 heq
    have e1 := alphaChar_toNat ⟨d1, h1⟩
    have e2 := alphaChar_toNat ⟨d2, h2⟩
    have := congrArg Char.toNat heq
    simp only at e1 e2
    omega
  have := congrArg alphaVal hdig
  rw [alphaVal_alphaDigits, alphaVal_alphaDigits] at this
  omega

/-- `ensure_document_slug`. -/
def ensure_document_slug (slug : String) : String :=
  let cleaned := pyStripHyphens slug
  let cleaned := if cleaned = "" then "document" else cleaned
  if pyStartsWith cleaned "document-" then cleaned else "document-" ++ cleaned

/-- `ensure_document_id`. -/
def ensure_document_id (base : String) : String :=
  let cleaned := if base = "" then "Document" else base
  if pyStartsWith (pyLower cleaned) "document" then cleaned else "Document" ++ cleaned

/-- Association-list lookup modelling `dict.get`. -/
def dlookup : List (String × Nat) → String → Option Nat
  | [], _ => none
  | (k, v) :: rest, key => if k = key then some v else dlookup rest key

/-- `dict.setdefault(key, v)`: insert only when absent (Python appends new
keys at the end). -/
def dsetdefault (d : List (String × Nat)) (key : String) (v : Nat) : List (String × Nat) :=
  match dlookup d key with
  | some _ => d
  | none => d ++ [(key, v)]

/-- `dict[key] = v`: replace the first binding or append a new one. -/
def dset : List (String × Nat) → String → Nat → List (String × Nat)
  | [], key, v => [(key, v)]
  | (k, w) :: rest, key, v =>
    if k = key then (k, v) :: rest else (k, w) :: dset rest key v

/-- Candidate name tried by `allocate_slug`'s loop at a given counter. -/
def slug_candidate (base : String) (counter : Nat) : String :=
  base ++ "-" ++ pyLower (alphabetic_suffix counter)

/-- Candidate name tried by `allocate_id`'s loop at a given counter. -/
def id_candidate (base : String) (counter : Nat) : String :=
  base ++ alphabetic_suffix counter

/-- The allocator `while True` loop shared by `allocate_slug`/`allocate_id`:
try candidates at increasing counters, return the first absent from
`existing` together with the advanced counter.  The loop always terminates
because candidates are injective in the counter while `existing` is finite;
fuel `existing.length + 1` is enough to reach a free candidate
(`alloc_loop_spec` below), so the fuel-exhausted branch is unreachable. -/
def alloc_loop (cand : Nat → String) (existing : List String) :
    Nat → Nat → String × Nat
  | counter, 0 => (cand counter, counter + 1)
  | counter, fuel + 1 =>
    if cand counter ∈ existing then
      alloc_loop cand existing (counter + 1) fuel
    else
      (cand counter, counter + 1)

/-- `allocate_slug(base, existing, counters)`, returning the allocated name
together with the updated `existing` set and `counters` dict. -/
def allocate_slug (base : String) (existing : List String)
    (counters : List (String × Nat)) : String × List String × List (String × Nat) :=
  let key := if base = "" then "document" else base
  if key ∈ existing then
    let counter := (dlookup counters base).getD 0
    let res := alloc_loop (slug_candidate base) existing counter (existing.length + 1)
    (res.1, res.1 :: existing, dset counters base res.2)
  else
    (key, key :: existing, dsetdefault counters base 0)

/-- `allocate_id(base, existing, counters)`. -/
def allocate_id (base : String) (existing : List String)
    (counters : List (String × Nat)) : String × List String × List (String × Nat) :=
  let identifier := if base = "" then "Document" else base
  if identifier ∈ existing then
    let counter := (dlookup counters base).getD 0
    let res := alloc_loop (id_candidate base) existing counter (existing.length + 1)
    (res.1, res.1 :: existing, dset counters base res.2)
  else
    (identifier, identifier :: existing, dsetdefault counters base 0)

/-! ### Allocator termination and freshness -/

theorem exists_free_candidate (f : Nat → String) (hf : ∀ i j, f i = f j → i = j)
    (l : List String) (start : Nat) : ∃ j, j ≤ l.length ∧ f (start + j) ∉ l := by
  by_contra hall
  push_neg at hall
  have hg : ∀ j : Fin (l.length + 1), f (start + j.val) ∈ l.toFinset := by
    intro j
    rw [List.mem_toFinset]
    exact hall j.val (Nat.lt_succ_iff.mp j.isLt)
  let g : Fin (l.length + 1) → {x // x ∈ l.toFinset} := fun j => ⟨f (start + j.val), hg j⟩
  have hginj : Function.Injective g := by
    intro a b hab
    have : f (start + a.val) = f (start + b.val) := congrArg Subtype.val hab
    have := hf _ _ this
    exact Fin.ext (by omega)
  have hcard := Fintype.card_le_of_injective g hginj
  rw [Fintype.card_fin, Fintype.card_coe] at hcard
  have := l.toFinset_card_le
  omega

theorem alloc_loop_not_mem (cand : Nat → String) (existing : List String) :
    ∀ fuel start, (∃ j, j < fuel ∧ cand (start + j) ∉ existing) →
      (alloc_loop cand existing start fuel).1 ∉ existing := by
  intro fuel
  induction fuel with
  | zero => intro start ⟨j, hj, _⟩; omega
  | succ f ih =>
    intro start ⟨j, hj, hfree⟩
    show (if cand start ∈ existing then alloc_loop cand existing (start + 1) f
      else (cand start, start + 1)).1 ∉ existing
    by_cases hmem : cand start ∈ existing
    · rw [if_pos hmem]
      apply ih
      have hj0 : j ≠ 0 := by rintro rfl; simp at hfree; exact hfree hmem
      exact ⟨j - 1, by omega, by have : start + 1 + (j - 1) = start + j := by omega
                                 rw [this]; exact hfree⟩
    · rw [if_neg hmem]
      exact hmem

theorem string_append_cancel_left (a : String) {b c : String}
    (h : a ++ b = a ++ c) : b = c := by
  have hd : a.data ++ b.data = a.data ++ c.data := by
    have h1 : (a ++ b).data = a.data ++ b.data := by cases a; cases b; rfl
    have h2 : (a ++ c).data = a.data ++ c.data := by cases a; cases c; rfl
    rw [← h1, ← h2, h]
  have := List.append_cancel_left hd
  cases b; cases c
  exact congrArg String.mk this

theorem pyLower_alphabetic_suffix_injective :
    ∀ i j, pyLower (alphabetic_suffix i) = pyLower (alphabetic_suffix j) → i = j := by
  intro i j h
  have hmk : (alphaDigits i).map (fun d => Char.toLower (Char.ofNat (65 + d))) =
      (alphaDigits j).map (fun d => Char.toLower (Char.ofNat (65 + d))) := by
    have := congrArg String.data h
    simpa [pyLower, alphabetic_suffix, List.map_map, Function.comp] using this
  have hdig : alphaDigits i = alphaDigits j := by
    refine map_inj_of_lt26 ?_ _ _ (fun d hd => alphaDigits_lt26 i hd)
      (fun d hd => alphaDigits_lt26 j hd) hmk
    intro d1 d2 h1 h2 heq
    have e1 := alphaChar_toLower_toNat ⟨d1, h1⟩
    have e2 := alphaChar_toLower_toNat ⟨d2, h2⟩
    have := congrArg Char.toNat heq
    simp only at e1 e2
    omega
  have := congrArg alphaVal hdig
  rw [alphaVal_alphaDigits, alphaVal_alphaDigits] at this
  omega

theorem slug_candidate_injective (base : String) :
    ∀ i j, slug_candidate base i = slug_candidate base j → i = j := by
  intro i j h
  have : pyLower (alphabetic_suffix i) = pyLower (alphabetic_suffix j) := by
    have h' : (base ++ "-") ++ pyLower (alphabetic_suffix i) =
        (base ++ "-") ++ pyLower (alphabetic_suffix j) := by
      simpa [slug_candidate, String.append_assoc] using h
    exact string_append_cancel_left _ h'
  exact pyLower_alphabetic_suffix_injective i j this

theorem id_candidate_injective (base : String) :
    ∀ i j, id_candidate base i = id_candidate base j → i = j := by
  intro i j h
  exact alphabetic_suffix_injective (string_append_cancel_left base h)

theorem allocate_slug_fresh (base : String) (existing : List String)
    (counters : List (String × Nat)) :
    (allocate_slug base existing counters).1 ∉ existing := by
  unfold allocate_slug
  by_cases hmem : (if base = "" then "document" else base) ∈ existing
  · simp only [hmem, if_true]
    apply alloc_loop_not_mem
    obtain ⟨j, hj, hfree⟩ := exists_free_candidate (slug_candidate base)
      (slug_candidate_injective base) existing ((dlookup counters base).getD 0)
    exact ⟨j, by omega, hfree⟩
  · simp only [hmem, if_false]
    exact not_false

theorem allocate_id_fresh (base : String) (existing : List String)
    (counters : List (String × Nat)) :
    (allocate_id base existing counters).1 ∉ existing := by
  unfold allocate_id
  by_cases hmem : (if base = "" then "Document" else base) ∈ existing
  · simp only [hmem, if_true]
    apply alloc_loop_not_mem
    obtain ⟨j, hj, hfree⟩ := exists_free_candidate (id_candidate base)
      (id_candidate_injective base) existing ((dlookup counters base).getD 0)
    exact ⟨j, by omega, hfree⟩
  · simp only [hmem, if_false]
    exact not_false

theorem allocate_slug_existing (base : String) (existing : List String)
    (counters : List (String × Nat)) :
    (allocate_slug base existing counters).2.1 =
      (allocate_slug base existing counters).1 :: existing := by
  unfold allocate_slug
  by_cases hmem : (if base = "" then "document" else base) ∈ existing <;>
    simp [hmem]

theorem allocate_id_existing (base : String) (existing : List String)
    (counters : List (String × Nat)) :
    (allocate_id base existing counters).2.1 =
      (allocate_id base existing counters).1 :: existing := by
  unfold allocate_id
  by_cases hmem : (if base = "" then "Document" else base) ∈ existing <;>
    simp [hmem]

theorem dlookup_dset_ne (d : List (String × Nat)) (key k : String) (v : Nat)
    (h : k ≠ key) : dlookup (dset d key v) k = dlookup d k := by
  induction d with
  | nil => simp [dset, dlookup, h.symm]
  | cons p rest ih =>
    obtain ⟨pk, pv⟩ := p
    by_cases hk : pk = key
    · subst hk
      simp [dset, dlookup, h.symm]
    · simp [dset, hk, dlookup, ih]

theorem dlookup_dsetdefault_ne (d : List (String × Nat)) (key k : String) (v : Nat)
    (h : k ≠ key) : dlookup (dsetdefault d key v) k = dlookup d k := by
  unfold dsetdefault
  cases hl : dlookup d key with
  | some w => rfl
  | none =>
    induction d with
    | nil => simp [dlookup, h.symm]
    | cons p rest ih =>
      obtain ⟨pk, pv⟩ := p
      by_cases hk : pk = k
      · simp [dlookup, hk]
      · simp only [dlookup, List.cons_append]
        rw [if_neg hk, if_neg hk]
        apply ih
        simp only [dlookup] at hl
        by_cases hpk : pk = key
        · rw [if_pos hpk] at hl; exact absurd hl (by simp)
        · rwa [if_neg hpk] at hl

theorem allocate_slug_counters_frame (base : String) (existing : List String)
    (counters : List (String × Nat)) (k : String) (h : k ≠ base) :
    dlookup (allocate_slug base existing counters).2.2 k = dlookup counters k := by
  unfold allocate_slug
  by_cases hmem : (if base = "" then "document" else base) ∈ existing
  · simp only [hmem, if_true]
    exact dlookup_dset_ne _ _ _ _ h
  · simp only [hmem, if_false]
    exact dlookup_dsetdefault_ne _ _ _ _ h

theorem allocate_id_counters_frame (base : String) (existing : List String)
    (counters : List (String × Nat)) (k : String) (h : k ≠ base) :
    dlookup (allocate_id base existing counters).2.2 k = dlookup counters k := by
  unfold allocate_id
  by_cases hmem : (if base = "" then "Document" else base) ∈ existing
  · simp only [hmem, if_true]
    exact dlookup_dset_ne _ _ _ _ h
  · simp only [hmem, if_false]
    exact dlookup_dsetdefault_ne _ _ _ _ h

/-! ### Claims C2, C3, C10 -/

/-- C2: `alphabetic_suffix` is the bijective base-26 sequence (`0 ↦ "A"`,
`1 ↦ "B"`, …, `25 ↦ "Z"`, `26 ↦ "AA"`, `27 ↦ "AB"`) and is injective, so it
produces no repeats and no gaps; consequently the slug allocator called with
base `"alpha"` against an issued-set already containing `"alpha"` returns
`"alpha-a"` and then `"alpha-b"`, and the PascalCase allocator with base
`"Alpha"` returns `"AlphaA"` then `"AlphaB"`. -/
theorem C2_alphabetic_suffix_bijective_allocator_sequence :
    Function.Injective alphabetic_suffix
    ∧ alphabetic_suffix 0 = "A" ∧ alphabetic_suffix 1 = "B"
    ∧ alphabetic_suffix 25 = "Z" ∧ alphabetic_suffix 26 = "AA"
    ∧ alphabetic_suffix 27 = "AB"
    ∧ (allocate_slug "alpha" ["alpha"] []).1 = "alpha-a"
    ∧ (allocate_slug "alpha" (allocate_slug "alpha" ["alpha"] []).2.1
        (allocate_slug "alpha" ["alpha"] []).2.2).1 = "alpha-b"
    ∧ (allocate_id "Alpha" ["Alpha"] []).1 = "AlphaA"
    ∧ (allocate_id "Alpha" (allocate_id "Alpha" ["Alpha"] []).2.1
        (allocate_id "Alpha" ["Alpha"] []).2.2).1 = "AlphaB" :=
  ⟨alphabetic_suffix_injective, by decide, by decide, by decide, by decide,
    by decide, by decide, by decide, by decide, by decide⟩

/-- Witness for C2: the injectivity conjunct applied at the concrete input 0. -/
theorem C2_witness : (0 : Nat) = 0 :=
  C2_alphabetic_suffix_bijective_allocator_sequence.1
    (rfl : alphabetic_suffix 0 = alphabetic_suffix 0)

/-- C3: for every base name (the empty string falls back to the placeholders
`"document"` / `"Document"`) and every issued-set/counter state, the
allocators return a name not in the issued-set at call time, register the
returned name in the issued-set, and return the base unchanged when the base
itself is unused. -/
theorem C3_allocators_fresh_registered_base_preserving :
    ∀ (base : String) (existing : List String) (counters : List (String × Nat)),
      ((allocate_slug base existing counters).1 ∉ existing
        ∧ (allocate_slug base existing counters).1 ∈
            (allocate_slug base existing counters).2.1
        ∧ ((if base = "" then "document" else base) ∉ existing →
            (allocate_slug base existing counters).1 =
              if base = "" then "document" else base))
      ∧ ((allocate_id base existing counters).1 ∉ existing
        ∧ (allocate_id base existing counters).1 ∈
            (allocate_id base existing counters).2.1
        ∧ ((if base = "" then "Document" else base) ∉ existing →
            (allocate_id base existing counters).1 =
              if base = "" then "Document" else base)) := by
  intro base existing counters
  refine ⟨⟨allocate_slug_fresh base existing counters, ?_, ?_⟩,
    ⟨allocate_id_fresh base existing counters, ?_, ?_⟩⟩
  · rw [allocate_slug_existing]; exact List.mem_cons_self _ _
  · intro hfree
    unfold allocate_slug
    simp [hfree]
  · rw [allocate_id_existing]; exact List.mem_cons_self _ _
  · intro hfree
    unfold allocate_id
    simp [hfree]

/-- Witness for C3 at base `"b"` with empty state. -/
theorem C3_witness :
    (allocate_slug "b" [] []).1 = (if "b" = "" then "document" else "b") :=
  (C3_allocators_fresh_registered_base_preserving "b" [] []).1.2.2 (by decide)

/-- C10: each allocator call mutates the caller state minimally: the
issued-set afterwards holds exactly the returned name plus the previous
members, and counter entries for every base name other than the given one
are unchanged. -/
theorem C10_allocators_minimal_state_mutation :
    ∀ (base : String) (existing : List String) (counters : List (String × Nat)),
      ((∀ x, x ∈ (allocate_slug base existing counters).2.1 ↔
          x = (allocate_slug base existing counters).1 ∨ x ∈ existing)
        ∧ ∀ k, k ≠ base →
            dlookup (allocate_slug base existing counters).2.2 k = dlookup counters k)
      ∧ ((∀ x, x ∈ (allocate_id base existing counters).2.1 ↔
          x = (allocate_id base existing counters).1 ∨ x ∈ existing)
        ∧ ∀ k, k ≠ base →
            dlookup (allocate_id base existing counters).2.2 k = dlookup counters k) := by
  intro base existing counters
  refine ⟨⟨?_, fun k hk => allocate_slug_counters_frame base existing counters k hk⟩,
    ⟨?_, fun k hk => allocate_id_counters_frame base existing counters k hk⟩⟩
  · intro x
    rw [allocate_slug_existing]
    exact List.mem_cons
  · intro x
    rw [allocate_id_existing]
    exact List.mem_cons

/-- Witness for C10: the counter-frame conjunct at concrete inputs. -/
theorem C10_witness :
    dlookup (allocate_slug "b" [] [("c", 7)]).2.2 "c" = dlookup [("c", 7)] "c" :=
  (C10_allocators_minimal_state_mutation "b" [] [("c", 7)]).1.2 "c" (by decide)

/-! ### Python comparison operators

CPython compares strings lexicographically by code point, and lists/tuples
lexicographically elementwise with a length tie-break.  The Boolean
comparators below implement exactly that and are used to model every
`sorted(...)` call of the pipeline (all CPython sorts are stable, as is
`List.insertionSort`, so the results agree). -/

/-- Strict lexicographic comparison of lists given a strict element order. -/
def listLtB {α : Type} [DecidableEq α] (elt : α → α → Bool) : List α → List α → Bool
  | [], [] => false
  | [], _ :: _ => true
  | _ :: _, [] => false
  | a :: as, b :: bs => if a = b then listLtB elt as bs else elt a b

/-- Non-strict lexicographic comparison of lists. -/
def listLeB {α : Type} [DecidableEq α] (elt : α → α → Bool) : List α → List α → Bool
  | [], _ => true
  | _ :: _, [] => false
  | a :: as, b :: bs => if a = b then listLeB elt as bs else elt a b

/-- One lexicographic component: compare by `elt` first, tie-break with `rest`. -/
def lexLeB {α : Type} [DecidableEq α] (elt : α → α → Bool) (a b : α) (rest : Bool) : Bool :=
  if a = b then rest else elt a b

theorem listLtB_irrefl {α : Type} [DecidableEq α] (elt : α → α → Bool)
    (h : ∀ a, elt a a = false) : ∀ l, listLtB elt l l = false := by
  intro l
  induction l with
  | nil => rfl
  | cons a as ih => simp [listLtB, ih]

theorem listLtB_trans {α : Type} [DecidableEq α] (elt : α → α → Bool)
    (hirr : ∀ a, elt a a = false)
    (htr : ∀ a b c, elt a b = true → elt b c = true → elt a c = true) :
    ∀ l1 l2 l3, listLtB elt l1 l2 = true → listLtB elt l2 l3 = true →
      listLtB elt l1 l3 = true := by
  intro l1
  induction l1 with
  | nil =>
    intro l2 l3 h1 h2
    cases l2 with
    | nil => exact h2
    | cons b bs => cases l3 with
      | nil => simp [listLtB] at h2
      | cons c cs => rfl
  | cons a as ih =>
    intro l2 l3 h1 h2
    cases l2 with
    | nil => simp [listLtB] at h1
    | cons b bs =>
      cases l3 with
      | nil => simp [listLtB] at h2
      | cons c cs =>
        simp only [listLtB] at h1 h2 ⊢
        by_cases hab : a = b
        · subst hab
          rw [if_pos rfl] at h1
          by_cases hbc : a = c
          · subst hbc
            rw [if_pos rfl] at h2 ⊢
            exact ih bs cs h1 h2
          · rw [if_neg hbc] at h2 ⊢
            exact h2
        · rw [if_neg hab] at h1
          by_cases hbc : b = c
          · subst hbc
            rw [if_neg hab]
            exact h1
          · rw [if_neg hbc] at h2
            have hac : elt a c = true := htr a b c h1 h2
            by_cases haceq : a = c
            · subst haceq
              rw [hirr a] at hac
              exact absurd hac (by simp)
            · rw [if_neg haceq]
              exact hac

theorem listLtB_connex {α : Type} [DecidableEq α] (elt : α → α → Bool)
    (hconn : ∀ a b, a ≠ b → elt a b = true ∨ elt b a = true) :
    ∀ l1 l2, l1 ≠ l2 → listLtB elt l1 l2 = true ∨ listLtB elt l2 l1 = true := by
  intro l1
  induction l1 with
  | nil =>
    intro l2 h
    cases l2 with
    | nil => exact absurd rfl h
    | cons b bs => left; rfl
  | cons a as ih =>
    intro l2 h
    cases l2 with
    | nil => right; rfl
    | cons b bs =>
      simp only [listLtB]
      by_cases hab : a = b
      · subst hab
        rw [if_pos rfl, if_pos rfl]
        exact ih bs (by intro hc; exact h (by rw [hc]))
      · rw [if_neg hab, if_neg (fun hba => hab hba.symm)]
        exact hconn a b hab

theorem listLeB_trans {α : Type} [DecidableEq α] (elt : α → α → Bool)
    (hirr : ∀ a, elt a a = false)
    (htr : ∀ a b c, elt a b = true → elt b c = true → elt a c = true) :
    ∀ l1 l2 l3, listLeB elt l1 l2 = true → listLeB elt l2 l3 = true →
      listLeB elt l1 l3 = true := by
  intro l1
  induction l1 with
  | nil => intro l2 l3 _ _; rfl
  | cons a as ih =>
    intro l2 l3 h1 h2
    cases l2 with
    | nil => simp [listLeB] at h1
    | cons b bs =>
      cases l3 with
      | nil => simp [listLeB] at h2
      | cons c cs =>
        simp only [listLeB] at h1 h2 ⊢
        by_cases hab : a = b
        · subst hab
          rw [if_pos rfl] at h1
          by_cases hbc : a = c
          · subst hbc
            rw [if_pos rfl] at h2 ⊢
            exact ih bs cs h1 h2
          · rw [if_neg hbc] at h2 ⊢
            exact h2
        · rw [if_neg hab] at h1
          by_cases hbc : b = c
          · subst hbc
            rw [if_neg hab]
            exact h1
          · rw [if_neg hbc] at h2
            have hac : elt a c = true := htr a b c h1 h2
            by_cases haceq : a = c
            · subst haceq
              rw [hirr a] at hac
              exact absurd hac (by simp)
            · rw [if_neg haceq]
              exact hac

theorem listLeB_total {α : Type} [DecidableEq α] (elt : α → α → Bool)
    (hconn : ∀ a b, a ≠ b → elt a b = true ∨ elt b a = true) :
    ∀ l1 l2, listLeB elt l1 l2 = true ∨ listLeB elt l2 l1 = true := by
  intro l1
  induction l1 with
  | nil => intro l2; left; rfl
  | cons a as ih =>
    intro l2
    cases l2 with
    | nil => right; rfl
    | cons b bs =>
      simp only [listLeB]
      by_cases hab : a = b
      · subst hab
        rw [if_pos rfl, if_pos rfl]
        exact ih bs
      · rw [if_neg hab, if_neg (fun hba => hab hba.symm)]
        exact hconn a b hab

theorem lexLeB_trans {α : Type} [DecidableEq α] (elt : α → α → Bool)
    (hirr : ∀ a, elt a a = false)
    (htr : ∀ a b c, elt a b = true → elt b c = true → elt a c = true)
    {a b c : α} {r1 r2 r3 : Bool} (hr : r1 = true → r2 = true → r3 = true) :
    lexLeB elt a b r1 = true → lexLeB elt b c r2 = true → lexLeB elt a c r3 = true := by
  intro h1 h2
  simp only [lexLeB] at h1 h2 ⊢
  by_cases hab : a = b
  · subst hab
    rw [if_pos rfl] at h1
    by_cases hbc : a = c
    · subst hbc
      rw [if_pos rfl] at h2 ⊢
      exact hr h1 h2
    · rw [if_neg hbc] at h2 ⊢
      exact h2
  · rw [if_neg hab] at h1
    by_cases hbc : b = c
    · subst hbc
      rw [if_neg hab]
      exact h1
    · rw [if_neg hbc] at h2
      have hac : elt a c = true := htr a b c h1 h2
      by_cases haceq : a = c
      · subst haceq
        rw [hirr a] at hac
        exact absurd hac (by simp)
      · rw [if_neg haceq]
        exact hac

theorem lexLeB_total {α : Type} [DecidableEq α] (elt : α → α → Bool)
    (hconn : ∀ a b, a ≠ b → elt a b = true ∨ elt b a = true)
    {a b : α} {r1 r2 : Bool} (hr : r1 = true ∨ r2 = true) :
    lexLeB elt a b r1 = true ∨ lexLeB elt b a r2 = true := by
  simp only [lexLeB]
  by_cases hab : a = b
  · subst hab
    rw [if_pos rfl, if_pos rfl]
    exact hr
  · rw [if_neg hab, if_neg (fun hba => hab hba.symm)]
    exact hconn a b hab

/-- Strict code-point comparison on characters (CPython `str` ordering). -/
def charLtB (a b : Char) : Bool := decide (a < b)

theorem charLtB_irrefl (a : Char) : charLtB a a = false := by
  simp [charLtB]

theorem charLtB_trans (a b c : Char) (h1 : charLtB a b = true) (h2 : charLtB b c = true) :
    charLtB a c = true := by
  simp only [charLtB, decide_eq_true_eq] at h1 h2 ⊢
  exact lt_trans h1 h2

theorem charLtB_connex (a b : Char) (h : a ≠ b) :
    charLtB a b = true ∨ charLtB b a = true := by
  simp only [charLtB, decide_eq_true_eq]
  exact lt_or_gt_of_ne h

/-- CPython `str` strict `<`. -/
def strLtB (a b : String) : Bool := listLtB charLtB a.data b.data

/-- CPython `str` `<=`. -/
def strLeB (a b : String) : Bool := listLeB charLtB a.data b.data

theorem strLtB_irrefl (a : String) : strLtB a a = false :=
  listLtB_irrefl charLtB charLtB_irrefl a.data

theorem strLtB_trans (a b c : String) (h1 : strLtB a b = true) (h2 : strLtB b c = true) :
    strLtB a c = true :=
  listLtB_trans charLtB charLtB_irrefl charLtB_trans a.data b.data c.data h1 h2

theorem strLtB_connex (a b : String) (h : a ≠ b) :
    strLtB a b = true ∨ strLtB b a = true := by
  refine listLtB_connex charLtB charLtB_connex a.data b.data ?_
  intro hd
  apply h
  cases a; cases b
  exact congrArg String.mk hd

theorem strLeB_trans (a b c : String) (h1 : strLeB a b = true) (h2 : strLeB b c = true) :
    strLeB a c = true :=
  listLeB_trans charLtB charLtB_irrefl charLtB_trans a.data b.data c.data h1 h2

theorem strLeB_total (a b : String) : strLeB a b = true ∨ strLeB b a = true := by
  refine listLeB_total charLtB ?_ a.data b.data
  exact charLtB_connex

/-- CPython comparison of lists of strings (used for `Path` part tuples and
`doc.categories`). -/
def strListLtB (a b : List String) : Bool := listLtB strLtB a b

theorem strListLtB_irrefl (a : List String) : strListLtB a a = false :=
  listLtB_irrefl strLtB strLtB_irrefl a

theorem strListLtB_trans (a b c : List String) (h1 : strListLtB a b = true)
    (h2 : strListLtB b c = true) : strListLtB a c = true :=
  listLtB_trans strLtB strLtB_irrefl strLtB_trans a b c h1 h2

theorem strListLtB_connex (a b : List String) (h : a ≠ b) :
    strListLtB a b = true ∨ strListLtB b a = true :=
  listLtB_connex strLtB strLtB_connex a b h

/-- The (non-strict, total) order on strings as a `Prop`, for `sorted(...)`. -/
def strLe (a b : String) : Prop := strLeB a b = true

instance : DecidableRel strLe := fun a b => instDecidableEqBool _ _

instance : IsTotal String strLe := ⟨strLeB_total⟩

instance : IsTrans String strLe := ⟨strLeB_trans⟩

/-! ### `tools/render_ftl.py`: label cleaning and slugification -/

/-- Try to match the regex `\s*\([^()]*\)` at the start of the char list;
on success return the remainder after the match.  `\s*` must be followed by
`'('`, which is not whitespace, so the greedy whitespace run needs no
backtracking. -/
def spTry (cs : List Char) : Option (List Char) :=
  match cs.dropWhile isPySpace with
  | '(' :: after =>
    match after.dropWhile (fun c => !(c = '(' || c = ')')) with
    | ')' :: rest => some rest
    | _ => none
  | _ => none

/-- `re.sub(r"\s*\([^()]*\)", "", ·)`: scan left to right, removing each
match and restarting after it, otherwise copying one character.  Every step
consumes at least one character (a match spans at least `"()"`), so fuel
equal to the list length is never exhausted; the fuel-out branch returns the
rest unchanged and is unreachable. -/
def stripParenGo : Nat → List Char → List Char
  | _, [] => []
  | 0, cs => cs
  | fuel + 1, c :: rest =>
    match spTry (c :: rest) with
    | some rest2 => stripParenGo fuel rest2
    | none => c :: stripParenGo fuel rest

/-- Replace every maximal run of characters satisfying `p` by the single
character `rep` (models `re.sub(r"X+", "Y", ·)`); the flag tracks whether we
are inside a run. -/
def collapseRunsAux (p : Char → Bool) (rep : Char) : Bool → List Char → List Char
  | _, [] => []
  | inRun, c :: rest =>
    if p c then
      if inRun then collapseRunsAux p rep true rest
      else rep :: collapseRunsAux p rep true rest
    else c :: collapseRunsAux p rep false rest

def collapseRuns (p : Char → Bool) (rep : Char) (l : List Char) : List Char :=
  collapseRunsAux p rep false l

/-- `strip_parenthetical`: remove parenthetical segments and collapse
surrounding whitespace. -/
def strip_parenthetical (text : String) : String :=
  let without := stripParenGo text.data.length text.data
  let collapsed := collapseRuns isPySpace ' ' without
  pyStrip (String.mk collapsed)

/-- The character class `[a-z0-9-]` kept by `normalise_component`. -/
def isSlugChar (c : Char) : Bool :=
  ('a' ≤ c && c ≤ 'z') || ('0' ≤ c && c ≤ '9') || c = '-'

/-- `normalise_component`: produce a filesystem/path-safe slug component. -/
def normalise_component (component : String) : String :=
  let cleaned := strip_parenthetical component
  let lowered := (pyLower cleaned).data.map (fun c => if c = ' ' then '-' else c)
  let dashed := collapseRuns (fun c => !isSlugChar c) '-' lowered
  let nodigits := dashed.filter (fun c => !c.isDigit)
  let squeezed := collapseRuns (fun c => c = '-') '-' nodigits
  pyStripHyphens (String.mk squeezed)

/-- `re.sub(r"^\d+\s*[-.)]?\s*", "", ·)` used by `clean_category_label`:
strip a leading ordinal of digits, optional whitespace, one optional
separator and optional whitespace.  All parts after `\d+` are optional, so
greedy matching is deterministic. -/
def stripOrdinal (cs : List Char) : List Char :=
  match cs with
  | [] => []
  | c :: _ =>
    if c.isDigit then
      let afterDigits := cs.dropWhile Char.isDigit
      let afterWs := afterDigits.dropWhile isPySpace
      let afterSep :=
        match afterWs with
        | d :: rest => if d = '-' || d = '.' || d = ')' then rest else afterWs
        | [] => []
      afterSep.dropWhile isPySpace
    else cs

/-- `clean_category_label`: human-readable category label without
parenthetical notes or a leading ordinal. -/
def clean_category_label (component : String) : String :=
  let cleaned := pyStrip (strip_parenthetical component)
  let result := pyStrip (String.mk (stripOrdinal cleaned.data))
  if result = "" then cleaned else result

/-- `[0-9a-zA-Z]` — `to_pascal_case` splits on runs of everything else. -/
def isAsciiAlnum (c : Char) : Bool :=
  ('0' ≤ c && c ≤ '9') || ('a' ≤ c && c ≤ 'z') || ('A' ≤ c && c ≤ 'Z')

/-- Collect the maximal alphanumeric runs of a char list (the non-empty
pieces of `re.split(r"[^0-9a-zA-Z]+", ·)`); `cur` is the reversed current
run. -/
def alnumRunsAux : List Char → List Char → List (List Char)
  | cur, [] => if cur.isEmpty then [] else [cur.reverse]
  | cur, c :: rest =>
    if isAsciiAlnum c then alnumRunsAux (c :: cur) rest
    else if cur.isEmpty then alnumRunsAux [] rest
    else cur.reverse :: alnumRunsAux [] rest

/-- Process one part for `to_pascal_case`: parts that are all digits are
skipped (`part.isdigit()`; runs are non-empty by construction), remaining
digits are stripped, empty results skipped, and the rest capitalised as
`part[0].upper() + part[1:].lower()`. -/
def pascalPart (part : List Char) : Option (List Char) :=
  if part.all Char.isDigit then none
  else
    match part.filter (fun c => !c.isDigit) with
    | [] => none
    | c :: rest => some (c.toUpper :: rest.map Char.toLower)

/-- `to_pascal_case`. -/
def to_pascal_case (value : String) : String :=
  String.mk (((alnumRunsAux [] value.data).filterMap pascalPart).flatten)

/-! ### `tools/render_ftl.py`: document model -/

/-- The single exception class raised by the pipeline core
(`class PaperParseError(RuntimeError)`), carrying its message. -/
inductive PyExc where
  | paperParseError (msg : String)
deriving DecidableEq

/-- The Python exception class name of an error value. -/
def excClass : PyExc → String
  | .paperParseError _ => "PaperParseError"

/-- The message carried by an error value. -/
def excMessage : PyExc → String
  | .paperParseError m => m

/-- The zero-width space prepended to Fluent body lines that would otherwise
start with `'['` (`FTL_PREFIX_MARKER`). -/
def ftlMarker : String := "\u200B"

/-- `PaperDocument`.  `path` is the root-relative path split into segments. -/
structure PaperDocument where
  path : List String
  categories : List String
  category_keys : List String
  slug : String
  slug_key : String
  title : String
  body_lines : List String
deriving DecidableEq

/-- `PaperDocument.category_label`. -/
def PaperDocument.category_label (doc : PaperDocument) : String :=
  if doc.categories.isEmpty then "uncategorized"
  else String.intercalate " / " doc.categories

/-- `PaperDocument.fluent_key`. -/
def PaperDocument.fluent_key (doc : PaperDocument) : String :=
  let parts := doc.category_keys ++ [doc.slug_key]
  let filtered := parts.filter (fun part => part ≠ "")
  let tail := if filtered.isEmpty then "paper" else String.intercalate "-" filtered
  "doc-text-printer-" ++ tail

/-- The suffix after the fixed key prelude; `fluent_key` is exactly the
prelude followed by this. -/
def fluentSuffix (doc : PaperDocument) : String :=
  let filtered := (doc.category_keys ++ [doc.slug_key]).filter (fun part => part ≠ "")
  if filtered.isEmpty then "paper" else String.intercalate "-" filtered

theorem fluent_key_eq (doc : PaperDocument) :
    doc.fluent_key = "doc-text-printer-" ++ fluentSuffix doc := rfl

/-! ### Filesystem model and discovery -/

/-- A file of the document tree: root-relative path segments plus content
(`none` models a file that vanishes between listing and reading, the
`FileNotFoundError` case of `parse_document`). -/
structure PFile where
  parts : List String
  content : Option String
deriving DecidableEq

/-- Printable form of a root-relative path (CPython prints `root/a/b`). -/
def pathString (root : String) (parts : List String) : String :=
  root ++ "/" ++ String.intercalate "/" parts

/-- Joined root-relative path, the sort key for discovery.  CPython orders
`Path` values by their path string; all discovered paths share the same root
text, so comparing root-relative joins is equivalent. -/
def relPathString (parts : List String) : String :=
  String.intercalate "/" parts

/-- `PurePath.stem`: the final component without its last suffix (a suffix
needs a dot at position `i` with `0 < i < len - 1`). -/
def pstem (name : String) : String :=
  let cs := name.data
  let afterRev := cs.reverse.takeWhile (fun c => c ≠ '.')
  if afterRev.length = cs.length then name
  else
    let i := cs.length - afterRev.length - 1
    if 0 < i ∧ i < cs.length - 1 then String.mk (cs.take i) else name

/-- `should_skip`: any root-relative segment starting with `"_"`.  (The
`relative_to` failure branch of the source cannot arise here because paths
are stored root-relative.) -/
def should_skip (parts : List String) : Bool :=
  parts.any (fun part => pyStartsWith part "_")

/-- Ordering of discovered paths (`sorted(candidates)`). -/
def pathLe (p q : List String) : Prop :=
  strLe (relPathString p) (relPathString q)

instance : DecidableRel pathLe := fun p q => instDecidableEqBool _ _

instance : IsTotal (List String) pathLe := ⟨fun p q => strLeB_total _ _⟩

instance : IsTrans (List String) pathLe := ⟨fun p q r => strLeB_trans _ _ _⟩

/-- `list_document_paths`: collect the `*.txt` and `*.paper` files (a set,
hence `dedup`), sort them, and drop skipped paths. -/
def list_document_paths (tree : List PFile) : List (List String) :=
  let txt := (tree.map PFile.parts).filter
    (fun p => pyEndsWith (p.getLastD "") ".txt")
  let paper := (tree.map PFile.parts).filter
    (fun p => pyEndsWith (p.getLastD "") ".paper")
  let candidates := (txt ++ paper).dedup
  (List.insertionSort pathLe candidates).filter (fun p => !should_skip p)

/-- Reading a file of the tree (`none` = unreadable/absent). -/
def readFile (tree : List PFile) (parts : List String) : Option String :=
  match tree.find? (fun f => f.parts == parts) with
  | some f => f.content
  | none => none

/-- `str.split(sep)` for a single-character separator (keeps empty pieces);
`cur` is the reversed current piece. -/
def splitOnCharAux (sep : Char) : List Char → List Char → List String
  | cur, [] => [String.mk cur.reverse]
  | cur, c :: rest =>
    if c = sep then String.mk cur.reverse :: splitOnCharAux sep [] rest
    else splitOnCharAux sep (c :: cur) rest

def splitOnChar (sep : Char) (cs : List Char) : List String :=
  splitOnCharAux sep [] cs

/-- Newline normalisation `replace("\r\n", "\n").replace("\r", "\n")` as a
single pass. -/
def normaliseNewlines : List Char → List Char
  | [] => []
  | '\r' :: '\n' :: rest => '\n' :: normaliseNewlines rest
  | '\r' :: rest => '\n' :: normaliseNewlines rest
  | c :: rest => c :: normaliseNewlines rest

/-- `parse_document(path, root)`; the file content is passed explicitly. -/
def parse_document (root : String) (parts : List String) (content : Option String) :
    Except PyExc PaperDocument :=
  match content with
  | none => .error (.paperParseError ("Missing document: " ++ pathString root parts))
  | some raw_text =>
    if pyStrip raw_text = "" then
      .error (.paperParseError ("Document " ++ pathString root parts ++ " is empty"))
    else
      let lines := splitOnChar '\n' (normaliseNewlines raw_text.data)
      if lines.isEmpty || !pyStartsWith (pyLstrip (lines.headD "")) "#" then
        .error (.paperParseError ("Document " ++ pathString root parts ++
          " must begin with a title line (e.g. \x27# Title\x27)."))
      else
        let title_line := pyStrip (String.mk ((pyLstrip (lines.headD "")).data.drop 1))
        if title_line = "" then
          .error (.paperParseError ("Title line in " ++ pathString root parts ++ " is empty"))
        else
          let raw_categories := parts.dropLast
          let display_categories :=
            (raw_categories.map clean_category_label).filter (fun s => s ≠ "")
          let category_keys :=
            (display_categories.map normalise_component).filter (fun s => s ≠ "")
          let slug := pstem (parts.getLastD "")
          let slug_key0 := normalise_component slug
          let slug_key :=
            if slug_key0 ≠ "" then slug_key0
            else
              let fallback := String.mk ((pyLower slug).data.filter (fun c => !c.isDigit))
              if fallback ≠ "" then fallback else "document"
          .ok { path := parts
                categories := display_categories
                category_keys := category_keys
                slug := slug
                slug_key := slug_key
                title := title_line
                body_lines := lines.tail }

/-- The parse loop of `discover_documents`: parse each path in order,
propagating the first raised error. -/
def parseAll (root : String) (tree : List PFile) :
    List (List String) → Except PyExc (List PaperDocument)
  | [] => .ok []
  | p :: ps =>
    match parse_document root p (readFile tree p) with
    | .error e => .error e
    | .ok d =>
      match parseAll root tree ps with
      | .error e => .error e
      | .ok ds => .ok (d :: ds)

/-- `discover_documents`. -/
def discover_documents (root : String) (tree : List PFile) :
    Except PyExc (List PaperDocument) :=
  match parseAll root tree (list_document_paths tree) with
  | .error e => .error e
  | .ok docs =>
    if docs.isEmpty then
      .error (.paperParseError ("No .paper documents found under " ++ root))
    else .ok docs

/-! ### Parsing facts -/

theorem splitOnCharAux_ne_nil (sep : Char) :
    ∀ (cur cs : List Char), splitOnCharAux sep cur cs ≠ [] := by
  intro cur cs
  induction cs generalizing cur with
  | nil => simp [splitOnCharAux]
  | cons c rest ih =>
    simp only [splitOnCharAux]
    by_cases hc : c = sep
    · simp [hc]
    · rw [if_neg hc]
      exact ih _

theorem splitOnChar_ne_nil (sep : Char) (cs : List Char) : splitOnChar sep cs ≠ [] :=
  splitOnCharAux_ne_nil sep [] cs

theorem parse_document_ok (root : String) (parts : List String) (content : Option String)
    (d : PaperDocument) (h : parse_document root parts content = .ok d) :
    d.path = parts ∧ d.title ≠ "" ∧ d.slug_key ≠ "" := by
  cases content with
  | none => exact absurd h (by simp [parse_document])
  | some raw_text =>
    simp only [parse_document] at h
    split at h
    · exact absurd h (by simp)
    · split at h
      · exact absurd h (by simp)
      · split at h
        · exact absurd h (by simp)
        · rename_i h1 h2 h3
          have hd := (Except.ok.injEq _ _).mp h.symm
          subst hd
          refine ⟨rfl, h3, ?_⟩
          simp only
          split
          · assumption
          · split
            · assumption
            · simp

theorem parseAll_ok (root : String) (tree : List PFile) :
    ∀ (ps : List (List String)) (ds : List PaperDocument),
      parseAll root tree ps = .ok ds →
      ds.map PaperDocument.path = ps ∧ ∀ d ∈ ds, d.title ≠ "" ∧ d.slug_key ≠ "" := by
  intro ps
  induction ps with
  | nil =>
    intro ds h
    simp only [parseAll] at h
    have := (Except.ok.injEq _ _).mp h.symm
    subst this
    simp
  | cons p rest ih =>
    intro ds h
    simp only [parseAll] at h
    cases hp : parse_document root p (readFile tree p) with
    | error e => rw [hp] at h; exact absurd h (by simp)
    | ok d =>
      rw [hp] at h
      cases hr : parseAll root tree rest with
      | error e => rw [hr] at h; exact absurd h (by simp)
      | ok ds' =>
        rw [hr] at h
        have := (Except.ok.injEq _ _).mp h.symm
        subst this
        obtain ⟨hmap, hprops⟩ := ih ds' hr
        obtain ⟨hpath, htitle, hslug⟩ := parse_document_ok root p _ d hp
        refine ⟨by simp [hmap, hpath], ?_⟩
        intro x hx
        rcases List.mem_cons.mp hx with rfl | hx'
        · exact ⟨htitle, hslug⟩
        · exact hprops x hx'

theorem discover_ok (root : String) (tree : List PFile) (docs : List PaperDocument)
    (h : discover_documents root tree = .ok docs) :
    parseAll root tree (list_document_paths tree) = .ok docs ∧ docs ≠ [] := by
  unfold discover_documents at h
  cases hp : parseAll root tree (list_document_paths tree) with
  | error e => rw [hp] at h; exact absurd h (by simp)
  | ok ds =>
    rw [hp] at h
    dsimp only at h
    by_cases hde : ds.isEmpty
    · rw [if_pos hde] at h; exact absurd h (by simp)
    · rw [if_neg hde] at h
      have := (Except.ok.injEq _ _).mp h
      subst this
      exact ⟨rfl, by simpa [List.isEmpty_iff] using hde⟩

theorem mem_list_document_paths (tree : List PFile) (p : List String) :
    p ∈ list_document_paths tree ↔
      (p ∈ tree.map PFile.parts ∧
        (pyEndsWith (p.getLastD "") ".txt" = true ∨ pyEndsWith (p.getLastD "") ".paper" = true))
      ∧ should_skip p = false := by
  unfold list_document_paths
  rw [List.mem_filter, (List.perm_insertionSort pathLe _).mem_iff, List.mem_dedup,
    List.mem_append, List.mem_filter, List.mem_filter]
  constructor
  · rintro ⟨h1 | h1, h2⟩
    · exact ⟨⟨h1.1, Or.inl h1.2⟩, by simpa using h2⟩
    · exact ⟨⟨h1.1, Or.inr h1.2⟩, by simpa using h2⟩
  · rintro ⟨⟨hmem, hel | hel⟩, hsk⟩
    · exact ⟨Or.inl ⟨hmem, hel⟩, by simp [hsk]⟩
    · exact ⟨Or.inr ⟨hmem, hel⟩, by simp [hsk]⟩

theorem pairwise_list_document_paths (tree : List PFile) :
    List.Pairwise pathLe (list_document_paths tree) := by
  unfold list_document_paths
  exact List.Pairwise.filter _ (List.sorted_insertionSort pathLe _)

/-! ### Claims C5, C6, C8, C1 -/

/-- C5: for a tree with no internal-marker (`"_"`-prefixed) path segment, a
successful discovery returns exactly the eligible files (`.txt`/`.paper`),
sorted lexicographically by full path, each parsed document having a
non-empty title and a non-empty slug key (and at least one document is
returned). -/
theorem C5_discovery_exact_sorted_titled :
    ∀ (root : String) (tree : List PFile) (docs : List PaperDocument),
      (∀ f ∈ tree, ∀ part ∈ f.parts, pyStartsWith part "_" = false) →
      discover_documents root tree = .ok docs →
      (∀ p : List String, (∃ d ∈ docs, d.path = p) ↔
          p ∈ tree.map PFile.parts ∧
            (pyEndsWith (p.getLastD "") ".txt" = true ∨
              pyEndsWith (p.getLastD "") ".paper" = true))
      ∧ docs ≠ []
      ∧ List.Pairwise (fun d1 d2 => pathLe d1.path d2.path) docs
      ∧ ∀ d ∈ docs, d.title ≠ "" ∧ d.slug_key ≠ "" := by
  intro root tree docs hnomark hok
  obtain ⟨hparse, hne⟩ := discover_ok root tree docs hok
  obtain ⟨hmap, hprops⟩ := parseAll_ok root tree _ docs hparse
  have hnoskip : ∀ p ∈ tree.map PFile.parts, should_skip p = false := by
    intro p hp
    rcases List.mem_map.mp hp with ⟨f, hf, rfl⟩
    simp only [should_skip, List.any_eq_false]
    intro part hpart
    simp [hnomark f hf part hpart]
  refine ⟨?_, hne, ?_, hprops⟩
  · intro p
    have hiff := mem_list_document_paths tree p
    constructor
    · rintro ⟨d, hd, rfl⟩
      have : d.path ∈ list_document_paths tree := by
        rw [← hmap]
        exact List.mem_map_of_mem _ hd
      exact (hiff.mp this).1
    · intro hel
      have hp : p ∈ list_document_paths tree :=
        hiff.mpr ⟨hel, hnoskip p hel.1⟩
      rw [← hmap] at hp
      rcases List.mem_map.mp hp with ⟨d, hd, hdp⟩
      exact ⟨d, hd, hdp⟩
  · have hpw : List.Pairwise pathLe (docs.map PaperDocument.path) := by
      rw [hmap]
      exact pairwise_list_document_paths tree
    exact (List.pairwise_map.mp hpw)

/-- Witness for C5: a one-file tree. -/
theorem C5_witness :
    ∃ docs : List PaperDocument,
      discover_documents "docs" [⟨["n.txt"], some "# T\nx"⟩] = .ok docs ∧ docs ≠ [] := by
  refine ⟨[⟨["n.txt"], [], [], "n", "n", "T", ["x"]⟩], by decide, ?_⟩
  exact (C5_discovery_exact_sorted_titled "docs" [⟨["n.txt"], some "# T\nx"⟩]
    [⟨["n.txt"], [], [], "n", "n", "T", ["x"]⟩] (by decide) (by decide)).2.1

/-- C6: parsing a readable document raises the format error exactly when the
content is empty/whitespace-only, the first line after trimming does not
start with `"#"`, or the title line is empty after the marker; and a run
that discovers zero eligible documents fails with the same error class. -/
theorem C6_format_error_exact_conditions :
    (∀ (root : String) (parts : List String) (content : String),
      (∃ e, parse_document root parts (some content) = .error e) ↔
        (pyStrip content = ""
          ∨ pyStartsWith (pyLstrip
              ((splitOnChar '\n' (normaliseNewlines content.data)).headD "")) "#" = false
          ∨ pyStrip (String.mk ((pyLstrip
              ((splitOnChar '\n' (normaliseNewlines content.data)).headD "")).data.drop 1)) = ""))
    ∧ ∀ (root : String) (tree : List PFile),
        list_document_paths tree = [] →
        discover_documents root tree =
          .error (.paperParseError ("No .paper documents found under " ++ root)) := by
  constructor
  · intro root parts content
    constructor
    · rintro ⟨e, he⟩
      simp only [parse_document] at he
      by_cases h1 : pyStrip content = ""
      · exact Or.inl h1
      · rw [if_neg h1] at he
        by_cases h2 : ((splitOnChar '\n' (normaliseNewlines content.data)).isEmpty ||
            !pyStartsWith (pyLstrip
              ((splitOnChar '\n' (normaliseNewlines content.data)).headD "")) "#") = true
        · refine Or.inr (Or.inl ?_)
          rcases Bool.or_eq_true_iff.mp h2 with hemp | hns
          · exact absurd (List.isEmpty_iff.mp hemp) (splitOnChar_ne_nil '\n' _)
          · simpa using hns
        · rw [if_neg h2] at he
          by_cases h3 : pyStrip (String.mk ((pyLstrip
              ((splitOnChar '\n' (normaliseNewlines content.data)).headD "")).data.drop 1)) = ""
          · exact Or.inr (Or.inr h3)
          · rw [if_neg h3] at he
            exact absurd he (by simp)
    · intro hcond
      simp only [parse_document]
      by_cases h1 : pyStrip content = ""
      · exact ⟨_, by rw [if_pos h1]⟩
      · rw [if_neg h1]
        by_cases h2 : ((splitOnChar '\n' (normaliseNewlines content.data)).isEmpty ||
            !pyStartsWith (pyLstrip
              ((splitOnChar '\n' (normaliseNewlines content.data)).headD "")) "#") = true
        · exact ⟨_, by rw [if_pos h2]⟩
        · rw [if_neg h2]
          by_cases h3 : pyStrip (String.mk ((pyLstrip
              ((splitOnChar '\n' (normaliseNewlines content.data)).headD "")).data.drop 1)) = ""
          · exact ⟨_, by rw [if_pos h3]⟩
          · rcases hcond with hc | hc | hc
            · exact absurd hc h1
            · have hb : (!pyStartsWith (pyLstrip
                  ((splitOnChar '\n' (normaliseNewlines content.data)).headD "")) "#") = true := by
                rw [hc]; rfl
              exact absurd (Bool.or_eq_true_iff.mpr (Or.inr hb)) h2
            · exact absurd hc h3
  · intro root tree h
    unfold discover_documents
    rw [h]
    rfl

/-- Witness for C6 at concrete inputs: an empty file errors; an empty
discovery errors. -/
theorem C6_witness :
    (∃ e, parse_document "docs" ["x.txt"] (some " ") = .error e)
    ∧ discover_documents "docs" [] =
        .error (.paperParseError ("No .paper documents found under " ++ "docs")) :=
  ⟨(C6_format_error_exact_conditions.1 "docs" ["x.txt"] " ").mpr (Or.inl (by decide)),
    C6_format_error_exact_conditions.2 "docs" [] (by decide)⟩

/-- Counterexample to C8: the code raises the single exception class
`PaperParseError` both for an unreadable file and for a structurally invalid
file — the two failure kinds are not distinct classes, only the messages
differ. -/
theorem C8_counterexample :
    parse_document "docs" ["a.txt"] none =
      .error (.paperParseError "Missing document: docs/a.txt")
    ∧ parse_document "docs" ["b.txt"] (some "") =
      .error (.paperParseError "Document docs/b.txt is empty")
    ∧ excClass (.paperParseError "Missing document: docs/a.txt") =
        excClass (.paperParseError "Document docs/b.txt is empty") := by
  refine ⟨by decide, by decide, rfl⟩

/-- C8 as amended: an unreadable source file fails with the (single)
`PaperParseError` class carrying a `"Missing document: …"` message; structural
violations raise the same class with messages that never carry that marker;
both failures are errors (fatal). -/
theorem C8_amended_io_failure_distinct_message :
    ∀ (root : String) (parts : List String),
      parse_document root parts none =
        .error (.paperParseError ("Missing document: " ++ pathString root parts))
      ∧ (∀ (content : String) (e : PyExc),
          parse_document root parts (some content) = .error e →
            pyStartsWith (excMessage e) "Missing document" = false)
      ∧ ∀ e : PyExc, excClass e = "PaperParseError" := by
  intro root parts
  refine ⟨rfl, ?_, fun e => by cases e; rfl⟩
  intro content e he
  simp only [parse_document] at he
  split at he
  · have := ((Except.error.injEq _ _).mp he).symm
    subst this
    rfl
  · split at he
    · have := ((Except.error.injEq _ _).mp he).symm
      subst this
      rfl
    · split at he
      · have := ((Except.error.injEq _ _).mp he).symm
        subst this
        rfl
      · exact absurd he (by simp)

/-- Witness for C8's amended theorem at a concrete input. -/
theorem C8_witness :
    pyStartsWith (excMessage (.paperParseError "Document docs/b.txt is empty"))
      "Missing document" = false :=
  (C8_amended_io_failure_distinct_message "docs" ["b.txt"]).2.1 "" _ (by decide)

/-- Two root-level files whose slugs differ only in their digits: digit runs
are removed by `normalise_component`, so both slug keys collapse to `"a"`. -/
def c1DocA1 : PaperDocument :=
  ⟨["a1.txt"], [], [], "a1", "a", "T", ["x"]⟩

def c1DocA2 : PaperDocument :=
  ⟨["a2.txt"], [], [], "a2", "a", "U", ["y"]⟩

/-- Counterexample to C1: two documents discovered under the same root with
distinct `(categoryPath, slug)` pairs — `([], "a1")` and `([], "a2")` — whose
derived `LocalizationKey`s are both `"doc-text-printer-a"`; the construction
is not injective over the discovered document set. -/
theorem C1_counterexample :
    discover_documents "docs"
      [⟨["a1.txt"], some "# T\nx"⟩, ⟨["a2.txt"], some "# U\ny"⟩] = .ok [c1DocA1, c1DocA2]
    ∧ (c1DocA1.categories, c1DocA1.slug) ≠ (c1DocA2.categories, c1DocA2.slug)
    ∧ c1DocA1.fluent_key = c1DocA2.fluent_key
    ∧ c1DocA1.fluent_key = "doc-text-printer-a" := by
  refine ⟨by decide, by decide, by decide, by decide⟩

/-- The spec's own uniqueness example: `identity/id-replacement` and
`medical/id-replacement` under one root. -/
def c1DocIdentity : PaperDocument :=
  ⟨["identity", "id-replacement.txt"], ["identity"], ["identity"],
    "id-replacement", "id-replacement", "ID Replacement", ["body"]⟩

def c1DocMedical : PaperDocument :=
  ⟨["medical", "id-replacement.txt"], ["medical"], ["medical"],
    "id-replacement", "id-replacement", "ID Replacement", ["body"]⟩

/-- C1 as amended: a document's `LocalizationKey` determines and is
determined by the derived key suffix (the hyphen-join of the non-empty
normalised category keys and slug key, with the `"paper"` fallback) — two
keys differ exactly when these suffixes differ; distinct
`(categoryPath, slug)` pairs alone do not guarantee distinct keys.  The
spec's example pair `identity/id-replacement` vs `medical/id-replacement`
does receive distinct keys. -/
theorem C1_amended_key_injective_in_suffix :
    (∀ d1 d2 : PaperDocument,
      d1.fluent_key = d2.fluent_key ↔ fluentSuffix d1 = fluentSuffix d2)
    ∧ discover_documents "docs"
        [⟨["identity", "id-replacement.txt"], some "# ID Replacement\nbody"⟩,
         ⟨["medical", "id-replacement.txt"], some "# ID Replacement\nbody"⟩] =
        .ok [c1DocIdentity, c1DocMedical]
    ∧ c1DocIdentity.fluent_key = "doc-text-printer-identity-id-replacement"
    ∧ c1DocMedical.fluent_key = "doc-text-printer-medical-id-replacement"
    ∧ c1DocIdentity.fluent_key ≠ c1DocMedical.fluent_key := by
  refine ⟨?_, by decide, by decide, by decide, by decide⟩
  intro d1 d2
  constructor
  · intro h
    rw [fluent_key_eq, fluent_key_eq] at h
    exact string_append_cancel_left "doc-text-printer-" h
  · intro h
    rw [fluent_key_eq, fluent_key_eq, h]

/-- Witness for C1's amended theorem: the equivalence applied at a concrete
document. -/
theorem C1_witness : c1DocIdentity.fluent_key = c1DocIdentity.fluent_key :=
  (C1_amended_key_injective_in_suffix.1 c1DocIdentity c1DocIdentity).mpr rfl

/-! ### `render_ftl`: the Fluent catalog renderer -/

theorem strData_append (a b : String) : (a ++ b).data = a.data ++ b.data := by
  cases a; cases b; rfl

/-- Sort order of `render_ftl`/`render_documents_yaml`:
`key=lambda doc: (doc.categories, doc.slug)` (CPython tuple/list compare). -/
def docLeB (d1 d2 : PaperDocument) : Bool :=
  lexLeB strListLtB d1.categories d2.categories (strLeB d1.slug d2.slug)

def docLe (d1 d2 : PaperDocument) : Prop := docLeB d1 d2 = true

instance : DecidableRel docLe := fun d1 d2 => instDecidableEqBool _ _

instance : IsTotal PaperDocument docLe :=
  ⟨fun d1 d2 => lexLeB_total strListLtB strListLtB_connex (strLeB_total _ _)⟩

instance : IsTrans PaperDocument docLe :=
  ⟨fun d1 d2 d3 => lexLeB_trans strListLtB strListLtB_irrefl strListLtB_trans
    (strLeB_trans _ _ _)⟩

/-- Escape of a body line beginning with `'['` (Fluent would read it as a
select variant). -/
def escapeFtlLine (raw : String) : String :=
  if pyStartsWith raw "[" then ftlMarker ++ raw else raw

/-- `while body_lines and not body_lines[-1].strip(): body_lines.pop()`. -/
def stripTrailingBlanks (lines : List String) : List String :=
  ((lines.reverse).dropWhile (fun l => pyStrip l == "")).reverse

/-- The per-document body block: the trailing-normalised, escaped body lines
indented four spaces, then the two marker pad lines always emitted. -/
def docBodyLines (doc : PaperDocument) : List String :=
  (stripTrailingBlanks doc.body_lines).map (fun raw => "    " ++ escapeFtlLine raw)
  ++ ["    " ++ ftlMarker, "    " ++ ftlMarker]

/-- The catalog entry of one document: its key line and its body block. -/
def docEntryLines (doc : PaperDocument) : List String :=
  (doc.fluent_key ++ " =") :: docBodyLines doc

/-- The comment lines emitted before each entry. -/
def docHeadLines (doc : PaperDocument) : List String :=
  ["", "# title: " ++ doc.title, "# slug: " ++ doc.slug]

/-- The per-document loop of `render_ftl`; `cur` is `current_category`. -/
def renderDocsLines : Option (List String) → List PaperDocument → List String
  | _, [] => []
  | cur, doc :: rest =>
    (if cur = some doc.categories then [] else ["", "# " ++ doc.category_label])
    ++ docHeadLines doc ++ docEntryLines doc
    ++ renderDocsLines (some doc.categories) rest

/-- The lines of `render_ftl`'s output (joined with `"\n"` below). -/
def renderFtlLines (documents : List PaperDocument) : List String :=
  ["# Auto-generated by tools/render_ftl.py. Do not edit manually.",
   "# Source docs: docs/*.txt"]
  ++ renderDocsLines none (List.insertionSort docLe documents)
  ++ [""]

/-- `render_ftl`. -/
def render_ftl (documents : List PaperDocument) : String :=
  String.intercalate "\n" (renderFtlLines documents)

/-- "This emitted line does not begin with four spaces and a raw bracket":
the body-line property the zero-width marker establishes. -/
def noRawBracket (l : String) : Prop :=
  l.data.take 5 ≠ [' ', ' ', ' ', ' ', '[']

theorem noRawBracket_of_head_ne (c : Char) (hc : c ≠ ' ') (rest : List Char)
    (l : String) (hl : l.data = c :: rest) : noRawBracket l := by
  unfold noRawBracket
  rw [hl]
  intro h
  rw [show ((c :: rest).take 5) = c :: rest.take 4 from rfl] at h
  exact hc (List.cons.inj h).1

theorem noRawBracket_nil (l : String) (hl : l.data = []) : noRawBracket l := by
  unfold noRawBracket
  rw [hl]
  simp

theorem escapeFtlLine_head (raw : String) {c : Char} {rest : List Char}
    (h : (escapeFtlLine raw).data = c :: rest) : c ≠ '[' := by
  unfold escapeFtlLine at h
  by_cases hb : pyStartsWith raw "[" = true
  · rw [if_pos hb, strData_append] at h
    rw [show ftlMarker.data = ['​'] from rfl] at h
    rw [← (List.cons.inj h).1]
    decide
  · rw [if_neg hb] at h
    intro hc
    subst hc
    apply hb
    unfold pyStartsWith
    rw [h, show ("[".data) = ['['] from by decide]
    simp [List.isPrefixOf]

theorem noRawBracket_body_line (raw : String) :
    noRawBracket ("    " ++ escapeFtlLine raw) := by
  unfold noRawBracket
  rw [strData_append]
  cases hesc : (escapeFtlLine raw).data with
  | nil => simp [hesc]
  | cons c rest =>
    have hc := escapeFtlLine_head raw hesc
    show ((' ' :: ' ' :: ' ' :: ' ' :: c :: rest).take 5) ≠ _
    rw [show ((' ' :: ' ' :: ' ' :: ' ' :: c :: rest).take 5) =
      [' ', ' ', ' ', ' ', c] from rfl]
    intro h
    apply hc
    simpa using h

theorem noRawBracket_pad : noRawBracket ("    " ++ ftlMarker) := by
  unfold noRawBracket
  decide

theorem strData_append_head (a b : String) (c : Char) (r : List Char)
    (ha : a.data = c :: r) : (a ++ b).data = c :: (r ++ b.data) := by
  rw [strData_append, ha]
  rfl

theorem fluent_key_data (d : PaperDocument) :
    ∃ r, d.fluent_key.data = 'd' :: r := by
  refine ⟨"oc-text-printer-".data ++ (fluentSuffix d).data, ?_⟩
  rw [fluent_key_eq]
  exact strData_append_head _ _ 'd' _ (by decide)

theorem noRawBracket_keyline (d : PaperDocument) :
    noRawBracket (d.fluent_key ++ " =") := by
  obtain ⟨r, hr⟩ := fluent_key_data d
  exact noRawBracket_of_head_ne 'd' (by decide) _ _ (strData_append_head _ _ 'd' r hr)

theorem noRawBracket_hash_line (s : String) : noRawBracket ("# " ++ s) :=
  noRawBracket_of_head_ne '#' (by decide) _ _
    (strData_append_head "# " s '#' [' '] (by decide))

theorem noRawBracket_docHeadLines (d : PaperDocument) :
    ∀ l ∈ docHeadLines d, noRawBracket l := by
  intro l hl
  unfold docHeadLines at hl
  rcases List.mem_cons.mp hl with rfl | hl
  · exact noRawBracket_nil _ rfl
  · rcases List.mem_cons.mp hl with rfl | hl
    · exact noRawBracket_of_head_ne '#' (by decide) _ _
        (strData_append_head "# title: " d.title '#' (" title: ".data) (by decide))
    · rcases List.mem_cons.mp hl with rfl | hl
      · exact noRawBracket_of_head_ne '#' (by decide) _ _
          (strData_append_head "# slug: " d.slug '#' (" slug: ".data) (by decide))
      · exact absurd hl (List.not_mem_nil _)

theorem noRawBracket_docEntryLines (d : PaperDocument) :
    ∀ l ∈ docEntryLines d, noRawBracket l := by
  intro l hl
  unfold docEntryLines at hl
  rcases List.mem_cons.mp hl with rfl | hl
  · exact noRawBracket_keyline d
  · unfold docBodyLines at hl
    rcases List.mem_append.mp hl with hb | hp
    · rcases List.mem_map.mp hb with ⟨raw, _, rfl⟩
      exact noRawBracket_body_line raw
    · rcases List.mem_cons.mp hp with rfl | hp
      · exact noRawBracket_pad
      · rcases List.mem_cons.mp hp with rfl | hp
        · exact noRawBracket_pad
        · exact absurd hp (List.not_mem_nil _)

theorem renderDocsLines_noRawBracket :
    ∀ (l : List PaperDocument) (cur : Option (List String)),
      ∀ line ∈ renderDocsLines cur l, noRawBracket line := by
  intro l
  induction l with
  | nil => intro cur line hline; exact absurd hline (List.not_mem_nil _)
  | cons doc rest ih =>
    intro cur line hline
    unfold renderDocsLines at hline
    rcases List.mem_append.mp hline with hline | htail
    · rcases List.mem_append.mp hline with hline | hentry
      · rcases List.mem_append.mp hline with hhdr | hhead
        · by_cases hcur : cur = some doc.categories
          · rw [if_pos hcur] at hhdr
            exact absurd hhdr (List.not_mem_nil _)
          · rw [if_neg hcur] at hhdr
            rcases List.mem_cons.mp hhdr with rfl | hhdr
            · exact noRawBracket_nil _ rfl
            · rcases List.mem_cons.mp hhdr with rfl | hhdr
              · exact noRawBracket_hash_line _
              · exact absurd hhdr (List.not_mem_nil _)
        · exact noRawBracket_docHeadLines doc line hhead
      · exact noRawBracket_docEntryLines doc line hentry
    · exact ih _ line htail

theorem renderDocsLines_infix :
    ∀ (l : List PaperDocument) (cur : Option (List String)) (d : PaperDocument),
      d ∈ l → List.IsInfix (docEntryLines d) (renderDocsLines cur l) := by
  intro l
  induction l with
  | nil => intro cur d hd; exact absurd hd (List.not_mem_nil _)
  | cons doc rest ih =>
    intro cur d hd
    rcases List.mem_cons.mp hd with rfl | hd'
    · exact ⟨(if cur = some d.categories then [] else ["", "# " ++ d.category_label])
        ++ docHeadLines d, renderDocsLines (some d.categories) rest,
        by simp [renderDocsLines, List.append_assoc]⟩
    · have hsub := ih (some doc.categories) d hd'
      exact hsub.trans ⟨(if cur = some doc.categories then []
        else ["", "# " ++ doc.category_label]) ++ docHeadLines doc ++ docEntryLines doc,
        [], by simp [renderDocsLines, List.append_assoc]⟩

/-- C9: every document's catalog entry — its `LocalizationKey` line followed
by the body with trailing blank lines normalised and every line beginning
with `'['` escaped by the zero-width marker — appears in the rendered
catalog, and no emitted line carries a raw `'['` at the start of its body
content (after the four-space indent). -/
theorem C9_catalog_entries_escaped :
    ∀ (documents : List PaperDocument),
      (∀ d ∈ documents, List.IsInfix (docEntryLines d) (renderFtlLines documents))
      ∧ ∀ l ∈ renderFtlLines documents, noRawBracket l := by
  intro documents
  constructor
  · intro d hd
    have hmem : d ∈ List.insertionSort docLe documents :=
      (List.perm_insertionSort docLe documents).mem_iff.mpr hd
    have hsub := renderDocsLines_infix _ none d hmem
    refine hsub.trans ?_
    unfold renderFtlLines
    exact ⟨["# Auto-generated by tools/render_ftl.py. Do not edit manually.",
      "# Source docs: docs/*.txt"], [""], by simp⟩
  · intro l hl
    unfold renderFtlLines at hl
    rcases List.mem_append.mp hl with hl | htl
    · rcases List.mem_append.mp hl with hhdr | hdocs
      · rcases List.mem_cons.mp hhdr with rfl | hhdr
        · exact noRawBracket_hash_line _
        · rcases List.mem_cons.mp hhdr with rfl | hhdr
          · exact noRawBracket_hash_line _
          · exact absurd hhdr (List.not_mem_nil _)
      · exact renderDocsLines_noRawBracket _ none l hdocs
    · rcases List.mem_cons.mp htl with rfl | htl
      · exact noRawBracket_nil _ rfl
      · exact absurd htl (List.not_mem_nil _)

/-- Witness for C9 at a one-document catalog whose body line starts with a
bracket. -/
theorem C9_witness :
    List.IsInfix (docEntryLines ⟨["w.txt"], [], [], "w", "w", "W", ["[x]"]⟩)
      (renderFtlLines [⟨["w.txt"], [], [], "w", "w", "W", ["[x]"]⟩]) :=
  (C9_catalog_entries_escaped [⟨["w.txt"], [], [], "w", "w", "W", ["[x]"]⟩]).1
    _ (List.mem_singleton.mpr rfl)

/-! ### `tools/render_starlight.py`: the category resolver -/

/-- A well-typed category override record (`load_category_overrides` rejects
non-object entries; a field set to a value of the wrong runtime type behaves
as absent for `order` — `isinstance(order_value, int)` — which `Option Int`
captures). -/
structure CategoryOverride where
  lathe_label : Option String
  lathe_key : Option String
  lathe_id : Option String
  comment : Option String
  order : Option Int
deriving DecidableEq

/-- `overrides.get(category, {})`. -/
def noOverride : CategoryOverride := ⟨none, none, none, none, none⟩

/-- Generic association-list lookup (Python `dict` keyed by `str`). -/
def alookup {β : Type} : List (String × β) → String → Option β
  | [], _ => none
  | (k, v) :: rest, key => if k = key then some v else alookup rest key

/-- `CategoryInfo`. -/
structure CategoryInfo where
  raw_label : String
  lathe_label : String
  lathe_key : String
  lathe_id : String
  comment : String
  order : Int
deriving DecidableEq

/-- `primary_category`. -/
def primary_category (doc : PaperDocument) : String :=
  match doc.categories with
  | [] => "Miscellaneous"
  | c :: _ => c

/-- The loop state of `build_category_infos`: the insertion-ordered `infos`
dict and the two allocator namespaces plus the running order counter. -/
structure BuildSt where
  infos : List (String × CategoryInfo)
  existing_keys : List String
  key_counters : List (String × Nat)
  existing_ids : List String
  id_counters : List (String × Nat)
  order_counter : Int

def initSt : BuildSt := ⟨[], [], [], [], [], 0⟩

/-- One iteration of the `for doc in documents` loop of
`build_category_infos`. -/
def build_step (overrides : List (String × CategoryOverride)) (st : BuildSt)
    (doc : PaperDocument) : BuildSt :=
  let category := primary_category doc
  match alookup st.infos category with
  | some _ => st
  | none =>
    let override := (alookup overrides category).getD noOverride
    let lathe_label := override.lathe_label.getD category
    let override_slug :=
      match override.lathe_key with
      | some s => if pyStrip s ≠ "" then normalise_component s else ""
      | none => ""
    let base_slug0 :=
      if override_slug ≠ "" then override_slug
      else if normalise_component lathe_label ≠ "" then normalise_component lathe_label
      else if normalise_component category ≠ "" then normalise_component category
      else "misc"
    let base_slug := ensure_document_slug base_slug0
    let rk := allocate_slug base_slug st.existing_keys st.key_counters
    let pascalBase :=
      if to_pascal_case lathe_label ≠ "" then to_pascal_case lathe_label
      else to_pascal_case category
    let base_id_source0 :=
      match override.lathe_id with
      | some s => if pyStrip s ≠ "" then pyStrip s else pascalBase
      | none => pascalBase
    let base_id_source :=
      if base_id_source0 ≠ "" then base_id_source0
      else if to_pascal_case category ≠ "" then to_pascal_case category
      else "Category"
    let base_id := ensure_document_id base_id_source
    let ri := allocate_id base_id st.existing_ids st.id_counters
    let comment := override.comment.getD lathe_label
    let order := override.order.getD st.order_counter
    { infos := st.infos ++
        [(category, ⟨category, lathe_label, rk.1, ri.1, comment, order⟩)]
      existing_keys := rk.2.1
      key_counters := rk.2.2
      existing_ids := ri.2.1
      id_counters := ri.2.2
      order_counter := st.order_counter + 1 }

def build_category_infos_aux (overrides : List (String × CategoryOverride)) :
    BuildSt → List PaperDocument → BuildSt
  | st, [] => st
  | st, doc :: rest =>
    build_category_infos_aux overrides (build_step overrides st doc) rest

/-- Strict `<` on Python ints. -/
def intLtB (a b : Int) : Bool := decide (a < b)

/-- Sort key of the final `sorted(infos.values(), key=...)`:
`(info.order, info.lathe_label.lower(), info.raw_label.lower())`. -/
def catLeB (i1 i2 : CategoryInfo) : Bool :=
  lexLeB intLtB i1.order i2.order
    (lexLeB strLtB (pyLower i1.lathe_label) (pyLower i2.lathe_label)
      (strLeB (pyLower i1.raw_label) (pyLower i2.raw_label)))

def catLe (i1 i2 : CategoryInfo) : Prop := catLeB i1 i2 = true

instance : DecidableRel catLe := fun i1 i2 => instDecidableEqBool _ _

theorem intLtB_irrefl (a : Int) : intLtB a a = false := by simp [intLtB]

theorem intLtB_trans (a b c : Int) (h1 : intLtB a b = true) (h2 : intLtB b c = true) :
    intLtB a c = true := by
  simp only [intLtB, decide_eq_true_eq] at h1 h2 ⊢
  omega

theorem intLtB_connex (a b : Int) (h : a ≠ b) :
    intLtB a b = true ∨ intLtB b a = true := by
  simp only [intLtB, decide_eq_true_eq]
  omega

instance : IsTotal CategoryInfo catLe :=
  ⟨fun i1 i2 => lexLeB_total intLtB intLtB_connex
    (lexLeB_total strLtB strLtB_connex (strLeB_total _ _))⟩

instance : IsTrans CategoryInfo catLe :=
  ⟨fun i1 i2 i3 => lexLeB_trans intLtB intLtB_irrefl intLtB_trans
    (lexLeB_trans strLtB strLtB_irrefl strLtB_trans (strLeB_trans _ _ _))⟩

/-- `build_category_infos`. -/
def build_category_infos (documents : List PaperDocument)
    (overrides : List (String × CategoryOverride)) : List CategoryInfo :=
  List.insertionSort catLe
    ((build_category_infos_aux overrides initSt documents).infos.map Prod.snd)

/-- First-encounter deduplication: the distinct values of `l` in the order
each first appears, continuing from `acc`. -/
def firstSeenFrom (acc : List String) : List String → List String
  | [] => acc
  | c :: rest => firstSeenFrom (if c ∈ acc then acc else acc ++ [c]) rest

def firstSeen (l : List String) : List String := firstSeenFrom [] l

theorem alookup_eq_none {β : Type} (d : List (String × β)) (key : String) :
    alookup d key = none ↔ key ∉ d.map Prod.fst := by
  induction d with
  | nil => simp [alookup]
  | cons p rest ih =>
    obtain ⟨k, v⟩ := p
    by_cases hk : k = key
    · subst hk
      simp [alookup]
    · simp only [alookup, if_neg hk, List.map_cons, List.mem_cons, ih]
      constructor
      · intro h
        rintro (rfl | hmem)
        · exact hk rfl
        · exact h hmem
      · intro h hmem
        exact h (Or.inr hmem)

theorem alookup_eq_some_mem {β : Type} (d : List (String × β)) (key : String)
    (h : alookup d key ≠ none) : key ∈ d.map Prod.fst := by
  by_contra hmem
  exact h ((alookup_eq_none d key).mpr hmem)

theorem build_step_found (o : List (String × CategoryOverride)) (st : BuildSt)
    (doc : PaperDocument) (i : CategoryInfo)
    (h : alookup st.infos (primary_category doc) = some i) :
    build_step o st doc = st := by
  unfold build_step
  dsimp only
  rw [h]

theorem build_step_new (o : List (String × CategoryOverride)) (st : BuildSt)
    (doc : PaperDocument)
    (h : alookup st.infos (primary_category doc) = none) :
    ∃ info : CategoryInfo,
      info.raw_label = primary_category doc
      ∧ info.order =
          (((alookup o (primary_category doc)).getD noOverride).order.getD st.order_counter)
      ∧ (build_step o st doc).infos = st.infos ++ [(primary_category doc, info)]
      ∧ (build_step o st doc).order_counter = st.order_counter + 1 := by
  unfold build_step
  dsimp only
  rw [h]
  exact ⟨_, rfl, rfl, rfl, rfl⟩

/-- The loop invariant of `build_category_infos`: the order counter equals
the number of collected categories, every record's `raw_label` is its dict
key, and a record whose override supplies no explicit integer order carries
its insertion index as its order. -/
def BuildInv (o : List (String × CategoryOverride)) (st : BuildSt) : Prop :=
  st.order_counter = (st.infos.length : Int)
  ∧ (∀ p ∈ st.infos, p.2.raw_label = p.1)
  ∧ ∀ (n : Nat) (c : String) (i : CategoryInfo), st.infos.get? n = some (c, i) →
      ((alookup o c).getD noOverride).order = none → i.order = (n : Int)

theorem build_step_inv (o : List (String × CategoryOverride)) (st : BuildSt)
    (doc : PaperDocument) (h : BuildInv o st) : BuildInv o (build_step o st doc) := by
  obtain ⟨hcnt, hraw, hord⟩ := h
  cases hl : alookup st.infos (primary_category doc) with
  | some i => rw [build_step_found o st doc i hl]; exact ⟨hcnt, hraw, hord⟩
  | none =>
    obtain ⟨info, hiraw, hiord, hinfos, hicnt⟩ := build_step_new o st doc hl
    refine ⟨?_, ?_, ?_⟩
    · rw [hicnt, hinfos, hcnt]
      push_cast [List.length_append, List.length_singleton]
      omega
    · rw [hinfos]
      intro p hp
      rcases List.mem_append.mp hp with hp | hp
      · exact hraw p hp
      · rcases List.mem_cons.mp hp with rfl | hp
        · exact hiraw
        · exact absurd hp (List.not_mem_nil _)
    · rw [hinfos]
      intro n c i hn hno
      by_cases hlt : n < st.infos.length
      · rw [List.get?_append hlt] at hn
        exact hord n c i hn hno
      · have hge : st.infos.length ≤ n := Nat.le_of_not_lt hlt
        rw [List.get?_append_right hge] at hn
        cases hsub : n - st.infos.length with
        | zero =>
          rw [hsub] at hn
          simp only [List.get?_cons_zero, Option.some.injEq, Prod.mk.injEq] at hn
          obtain ⟨rfl, rfl⟩ := hn
          have hnlen : n = st.infos.length := by omega
          rw [hiord, hno]
          simp only [Option.getD_none]
          rw [hcnt, hnlen]
        | succ m =>
          rw [hsub] at hn
          simp at hn

theorem build_aux_inv (o : List (String × CategoryOverride)) :
    ∀ (docs : List PaperDocument) (st : BuildSt), BuildInv o st →
      BuildInv o (build_category_infos_aux o st docs) := by
  intro docs
  induction docs with
  | nil => intro st h; exact h
  | cons d rest ih =>
    intro st h
    exact ih _ (build_step_inv o st d h)

theorem build_step_keys (o : List (String × CategoryOverride)) (st : BuildSt)
    (doc : PaperDocument) :
    (build_step o st doc).infos.map Prod.fst =
      (if primary_category doc ∈ st.infos.map Prod.fst then st.infos.map Prod.fst
        else st.infos.map Prod.fst ++ [primary_category doc]) := by
  cases hl : alookup st.infos (primary_category doc) with
  | some i =>
    rw [build_step_found o st doc i hl,
      if_pos (alookup_eq_some_mem _ _ (by rw [hl]; exact Option.some_ne_none i))]
  | none =>
    obtain ⟨info, _, _, hinfos, _⟩ := build_step_new o st doc hl
    rw [hinfos, if_neg ((alookup_eq_none _ _).mp hl)]
    simp

theorem build_aux_keys (o : List (String × CategoryOverride)) :
    ∀ (docs : List PaperDocument) (st : BuildSt),
      (build_category_infos_aux o st docs).infos.map Prod.fst =
        firstSeenFrom (st.infos.map Prod.fst) (docs.map primary_category) := by
  intro docs
  induction docs with
  | nil => intro st; rfl
  | cons d rest ih =>
    intro st
    show (build_category_infos_aux o (build_step o st d) rest).infos.map Prod.fst = _
    rw [ih (build_step o st d), build_step_keys o st d]
    show _ = firstSeenFrom
      (if primary_category d ∈ st.infos.map Prod.fst then st.infos.map Prod.fst
        else st.infos.map Prod.fst ++ [primary_category d]) (rest.map primary_category)
    rfl

theorem mem_firstSeenFrom (c : String) :
    ∀ (l acc : List String), c ∈ firstSeenFrom acc l ↔ c ∈ acc ∨ c ∈ l := by
  intro l
  induction l with
  | nil => intro acc; simp [firstSeenFrom]
  | cons d rest ih =>
    intro acc
    show c ∈ firstSeenFrom (if d ∈ acc then acc else acc ++ [d]) rest ↔ _
    rw [ih]
    by_cases hd : d ∈ acc
    · rw [if_pos hd]
      constructor
      · rintro (h | h)
        · exact Or.inl h
        · exact Or.inr (List.mem_cons_of_mem d h)
      · rintro (h | h)
        · exact Or.inl h
        · rcases List.mem_cons.mp h with rfl | h
          · exact Or.inl hd
          · exact Or.inr h
    · rw [if_neg hd]
      constructor
      · rintro (h | h)
        · rcases List.mem_append.mp h with h | h
          · exact Or.inl h
          · rcases List.mem_cons.mp h with rfl | h
            · exact Or.inr (List.mem_cons_self _ _)
            · exact absurd h (List.not_mem_nil _)
        · exact Or.inr (List.mem_cons_of_mem d h)
      · rintro (h | h)
        · exact Or.inl (List.mem_append.mpr (Or.inl h))
        · rcases List.mem_cons.mp h with rfl | h
          · exact Or.inl (List.mem_append.mpr (Or.inr (List.mem_cons_self _ _)))
          · exact Or.inr h

theorem nodup_firstSeenFrom :
    ∀ (l acc : List String), acc.Nodup → (firstSeenFrom acc l).Nodup := by
  intro l
  induction l with
  | nil => intro acc h; exact h
  | cons d rest ih =>
    intro acc h
    show (firstSeenFrom (if d ∈ acc then acc else acc ++ [d]) rest).Nodup
    by_cases hd : d ∈ acc
    · rw [if_pos hd]; exact ih acc h
    · rw [if_neg hd]
      refine ih _ ?_
      simp [List.nodup_append, h, hd]

/-- C7: the category resolver produces exactly one `CategoryInfo` per
distinct primary category, sorted by (explicit-or-assigned order ascending,
then display label case-insensitive, then raw label case-insensitive), and a
category whose override supplies no explicit integer order receives its
first-encounter position among the distinct primary categories as its
order. -/
theorem C7_category_resolver_one_per_category_sorted :
    ∀ (documents : List PaperDocument) (overrides : List (String × CategoryOverride)),
      (∀ c : String,
        (∃ i ∈ build_category_infos documents overrides, i.raw_label = c) ↔
          c ∈ documents.map primary_category)
      ∧ ((build_category_infos documents overrides).map CategoryInfo.raw_label).Nodup
      ∧ List.Pairwise catLe (build_category_infos documents overrides)
      ∧ ∀ i ∈ build_category_infos documents overrides,
          ((alookup overrides i.raw_label).getD noOverride).order = none →
            0 ≤ i.order ∧
              (firstSeen (documents.map primary_category)).get? i.order.toNat =
                some i.raw_label := by
  intro documents overrides
  have hperm : List.Perm (build_category_infos documents overrides)
      ((build_category_infos_aux overrides initSt documents).infos.map Prod.snd) :=
    List.perm_insertionSort catLe _
  have hinv : BuildInv overrides (build_category_infos_aux overrides initSt documents) :=
    build_aux_inv overrides documents initSt ⟨rfl, by simp [initSt], by simp [initSt]⟩
  have hkeys : (build_category_infos_aux overrides initSt documents).infos.map Prod.fst =
      firstSeen (documents.map primary_category) :=
    build_aux_keys overrides documents initSt
  obtain ⟨hcnt, hraw, hord⟩ := hinv
  have hmemsnd : ∀ i : CategoryInfo,
      (i ∈ build_category_infos documents overrides ↔
        i ∈ (build_category_infos_aux overrides initSt documents).infos.map Prod.snd) :=
    fun i => hperm.mem_iff
  refine ⟨?_, ?_, ?_, ?_⟩
  · intro c
    rw [show (c ∈ documents.map primary_category) ↔
        c ∈ firstSeen (documents.map primary_category) from
      (by rw [firstSeen, mem_firstSeenFrom]; simp)]
    rw [← hkeys]
    constructor
    · rintro ⟨i, hi, rfl⟩
      rcases List.mem_map.mp ((hmemsnd i).mp hi) with ⟨p, hp, rfl⟩
      rw [hraw p hp]
      exact List.mem_map_of_mem _ hp
    · intro hc
      rcases List.mem_map.mp hc with ⟨p, hp, rfl⟩
      exact ⟨p.2, (hmemsnd p.2).mpr (List.mem_map_of_mem _ hp), hraw p hp⟩
  · have hmapmap : ((build_category_infos_aux overrides initSt documents).infos.map
        Prod.snd).map CategoryInfo.raw_label =
        (build_category_infos_aux overrides initSt documents).infos.map Prod.fst := by
      rw [List.map_map]
      exact List.map_congr_left (fun p hp => hraw p hp)
    have hnodup : (((build_category_infos_aux overrides initSt documents).infos.map
        Prod.snd).map CategoryInfo.raw_label).Nodup := by
      rw [hmapmap, hkeys]
      exact nodup_firstSeenFrom _ [] List.nodup_nil
    exact ((hperm.map CategoryInfo.raw_label).nodup_iff).mpr hnodup
  · exact List.sorted_insertionSort catLe _
  · intro i hi hno
    rcases List.mem_map.mp ((hmemsnd i).mp hi) with ⟨p, hp, rfl⟩
    rcases List.mem_iff_get?.mp hp with ⟨n, hn⟩
    have hcraw := hraw p hp
    have hio : p.2.order = (n : Int) := by
      refine hord n p.1 p.2 ?_ ?_
      · rw [← hn]
      · rw [← hcraw]
        exact hno
    refine ⟨by omega, ?_⟩
    rw [← hkeys, hio]
    rw [show ((n : Int)).toNat = n from rfl]
    rw [List.get?_map, hn, hcraw]
    rfl

/-- Witness for C7: a single uncategorised document with no overrides. -/
theorem C7_witness :
    0 ≤ (⟨"Miscellaneous", "Miscellaneous", "document-miscellaneous",
        "DocumentMiscellaneous", "Miscellaneous", 0⟩ : CategoryInfo).order :=
  ((C7_category_resolver_one_per_category_sorted
      [⟨["m.txt"], [], [], "m", "m", "M", []⟩] []).2.2.2
    ⟨"Miscellaneous", "Miscellaneous", "document-miscellaneous",
      "DocumentMiscellaneous", "Miscellaneous", 0⟩ (by decide) (by decide)).1

/-! ### `tools/verify_bundle.py`

The verifier is embedded over already-parsed YAML structures (the spec's
"given paths (or equivalently, parsed structures)"); reading a file and
`yaml.safe_load` are the I/O boundary.  The two Fluent files are still
parsed here, line by line, exactly as `_parse_ftl_keys` does. -/

/-- A YAML component entry of an entity prototype, with the fields the
verifier reads. -/
structure PaperComp where
  type : String
  content : Option String
deriving DecidableEq

structure EntityEntry where
  type : String
  id : Option String
  components : List PaperComp
deriving DecidableEq

structure RecipeEntry where
  type : String
  id : Option String
  result : Option String
  categories : List String
deriving DecidableEq

structure PackEntry where
  type : String
  id : Option String
  recipes : List String
deriving DecidableEq

structure CatProtoEntry where
  type : String
  id : Option String
  name : Option String
deriving DecidableEq

/-- A parsed `documents.yml` entry. -/
structure DocEntry where
  key : Option String
  categories : List String
deriving DecidableEq

/-- Python falsiness of an optional string (`if not key`). -/
def optFalsy : Option String → Bool
  | none => true
  | some s => s = ""

/-- f-string rendering of an optional string (`None` prints as `"None"`). -/
def optStr : Option String → String
  | none => "None"
  | some s => s

/-- The character class of `FTL_ENTRY_RE`'s key group, `[a-z0-9\-]`. -/
def isFtlKeyChar (c : Char) : Bool :=
  ('a' ≤ c && c ≤ 'z') || ('0' ≤ c && c ≤ '9') || c = '-'

/-- Match `FTL_ENTRY_RE = ^([a-z0-9\-]+)\s*=` against a stripped line
(comment and blank lines were already skipped by the caller). -/
def parse_ftl_key_line (line : String) : Option String :=
  let stripped := pyStrip line
  if stripped = "" then none
  else if pyStartsWith stripped "#" then none
  else
    let keyChars := stripped.data.takeWhile isFtlKeyChar
    if keyChars.isEmpty then none
    else
      match (stripped.data.drop keyChars.length).dropWhile isPySpace with
      | '=' :: _ => some (String.mk keyChars)
      | _ => none

/-- `_parse_ftl_keys`: the set of entry keys with the expected prelude. -/
def parse_ftl_keys (lines : List String) (expected : String) : List String :=
  ((lines.filterMap parse_ftl_key_line).filter
    (fun k => pyStartsWith k expected)).dedup

/-- `_extract_documents`: the document-key set and the set of category ids
declared by entries (entries with a falsy key are skipped). -/
def extract_documents (documents : List DocEntry) : List String × List String :=
  let withKey := documents.filter (fun e => !optFalsy e.key)
  ((withKey.map (fun e => optStr e.key)).dedup,
    ((withKey.map DocEntry.categories).flatten).dedup)

/-- `", ".join(sorted(s))` over a Python set. -/
def joinSorted (l : List String) : String :=
  String.intercalate ", " (List.insertionSort strLe l.dedup)

/-- The entity-prototype loop of `verify_bundle`; returns the error messages
in emission order together with the collected entity ids. -/
def entityLoop (prototypes_path : String) (doc_keys : List String) :
    List String → List EntityEntry → List String × List String
  | ids, [] => ([], ids)
  | ids, e :: rest =>
    if e.type ≠ "entity" then entityLoop prototypes_path doc_keys ids rest
    else if optFalsy e.id then
      let r := entityLoop prototypes_path doc_keys ids rest
      (("Entity entry missing id in " ++ prototypes_path) :: r.1, r.2)
    else
      let entity_id := optStr e.id
      if entity_id ∈ ids then
        let r := entityLoop prototypes_path doc_keys ids rest
        (("Duplicate entity id " ++ entity_id ++ " in " ++ prototypes_path) :: r.1, r.2)
      else
        match e.components.find? (fun comp => comp.type == "Paper") with
        | none =>
          let r := entityLoop prototypes_path doc_keys (ids ++ [entity_id]) rest
          ((entity_id ++ " missing Paper component in " ++ prototypes_path) :: r.1, r.2)
        | some paper =>
          let content_err :=
            match paper.content with
            | some ck =>
              if ck ∈ doc_keys then []
              else [entity_id ++ " references unknown paperwork key \x27" ++ ck ++ "\x27"]
            | none => [entity_id ++ " references unknown paperwork key \x27None\x27"]
          let r := entityLoop prototypes_path doc_keys (ids ++ [entity_id]) rest
          (content_err ++ r.1, r.2)

/-- The lathe-recipe loop; returns (errors, recipe ids, referenced category
ids). -/
def recipeLoop (recipes_path : String) (entity_ids : List String) :
    List String → List String → List RecipeEntry →
      List String × List String × List String
  | ids, cats, [] => ([], ids, cats)
  | ids, cats, e :: rest =>
    if e.type ≠ "latheRecipe" then recipeLoop recipes_path entity_ids ids cats rest
    else if optFalsy e.id then
      let r := recipeLoop recipes_path entity_ids ids cats rest
      (("Recipe entry missing id in " ++ recipes_path) :: r.1, r.2)
    else
      let recipe_id := optStr e.id
      if recipe_id ∈ ids then
        let r := recipeLoop recipes_path entity_ids ids cats rest
        (("Duplicate recipe id " ++ recipe_id ++ " in " ++ recipes_path) :: r.1, r.2)
      else
        let result_err :=
          match e.result with
          | some res =>
            if res ∈ entity_ids then []
            else [recipe_id ++ " references unknown entity \x27" ++ res ++ "\x27"]
          | none => [recipe_id ++ " references unknown entity \x27None\x27"]
        let r := recipeLoop recipes_path entity_ids (ids ++ [recipe_id])
          (cats ++ e.categories) rest
        (result_err ++ r.1, r.2)

/-- The recipe-pack loop; only emits errors. -/
def packLoop (recipe_ids : List String) : List PackEntry → List String
  | [] => []
  | e :: rest =>
    if e.type ≠ "latheRecipePack" then packLoop recipe_ids rest
    else
      ((e.recipes.filter (fun rid => rid ∉ recipe_ids)).map
        (fun rid => "Recipe pack " ++ optStr e.id ++
          " references unknown recipe \x27" ++ rid ++ "\x27"))
      ++ packLoop recipe_ids rest

/-- The `latheCategory` prototype loop; returns (errors, id ↦ name dict). -/
def catProtoLoop (category_prototypes_path : String) :
    List (String × String) → List CatProtoEntry → List String × List (String × String)
  | acc, [] => ([], acc)
  | acc, e :: rest =>
    if e.type ≠ "latheCategory" then catProtoLoop category_prototypes_path acc rest
    else if optFalsy e.id then
      let r := catProtoLoop category_prototypes_path acc rest
      (("latheCategory entry missing id in " ++ category_prototypes_path) :: r.1, r.2)
    else
      let category_id := optStr e.id
      if (alookup acc category_id).isSome then
        let r := catProtoLoop category_prototypes_path acc rest
        (("Duplicate latheCategory id " ++ category_id) :: r.1, r.2)
      else
        match e.name with
        | some nm =>
          if nm = "" then
            let r := catProtoLoop category_prototypes_path acc rest
            (("latheCategory " ++ category_id ++ " missing name in prototypes") :: r.1, r.2)
          else
            catProtoLoop category_prototypes_path (acc ++ [(category_id, nm)]) rest
        | none =>
          let r := catProtoLoop category_prototypes_path acc rest
          (("latheCategory " ++ category_id ++ " missing name in prototypes") :: r.1, r.2)

/-- `verify_bundle`, over parsed structures.  Of the seven path arguments of
the source only the four that appear in error messages are kept.  The
per-element messages of the `unused_category_ids` loop are emitted in the
prototypes' insertion order (CPython iterates that `set` in an unspecified
order; only membership is observable through the checks proved here). -/
def verify_bundle (documents_path prototypes_path recipes_path
    category_prototypes_path : String)
    (documents : List DocEntry) (ftl_lines : List String)
    (prototypes : List EntityEntry) (recipes : List RecipeEntry)
    (packs : List PackEntry) (catProtos : List CatProtoEntry)
    (category_ftl_lines : List String) : List String :=
  let ex := extract_documents documents
  let doc_keys := ex.1
  let doc_category_ids := ex.2
  let errs0 := if doc_keys.isEmpty
    then ["No documents found in " ++ documents_path] else []
  let ftl_keys := parse_ftl_keys ftl_lines "doc-text-printer-"
  let missing_ftl := doc_keys.filter (fun k => k ∉ ftl_keys)
  let errs1 := if missing_ftl.isEmpty then []
    else ["doc-printer.ftl missing entries for: " ++ joinSorted missing_ftl]
  let er := entityLoop prototypes_path doc_keys [] prototypes
  let rr := recipeLoop recipes_path er.2 [] [] recipes
  let recipe_ids := rr.2.1
  let recipe_category_ids := rr.2.2
  let packErrs := packLoop recipe_ids packs
  let cr := catProtoLoop category_prototypes_path [] catProtos
  let lathe_ids := cr.2.map Prod.fst
  let lathe_names := cr.2.map Prod.snd
  let missing_category_ids := doc_category_ids.filter (fun c => c ∉ lathe_ids)
  let errs5 := if missing_category_ids.isEmpty then []
    else ["documents.yml references undefined lathe categories: " ++
      joinSorted missing_category_ids]
  let missing_recipe_categories := recipe_category_ids.filter (fun c => c ∉ lathe_ids)
  let errs6 := if missing_recipe_categories.isEmpty then []
    else ["lathe recipes reference undefined categories: " ++
      joinSorted missing_recipe_categories]
  let category_ftl_keys := parse_ftl_keys category_ftl_lines "lathe-category-"
  let missing_ftl_categories := lathe_names.filter (fun n => n ∉ category_ftl_keys)
  let errs7 := if missing_ftl_categories.isEmpty then []
    else ["lathe-categories.ftl missing definitions for: " ++
      joinSorted missing_ftl_categories]
  let undefined_ftl_categories := category_ftl_keys.filter (fun k => k ∉ lathe_names)
  let errs8 := if undefined_ftl_categories.isEmpty then []
    else ["lathe-categories.ftl defines unused categories: " ++
      joinSorted undefined_ftl_categories]
  let unused_category_ids := lathe_ids.filter (fun c => c ∉ doc_category_ids)
  let errs9 := (unused_category_ids.filter (fun c => c ∉ recipe_category_ids)).map
    (fun c => "latheCategory \x27" ++ c ++
      "\x27 is not referenced by documents or recipes")
  let missing_recipe_category_usage := lathe_ids.filter
    (fun c => c ∉ recipe_category_ids)
  let errs10 := if missing_recipe_category_usage.isEmpty then []
    else ["No recipes reference categories: " ++
      joinSorted missing_recipe_category_usage]
  errs0 ++ errs1 ++ er.1 ++ rr.1 ++ packErrs ++ cr.1
    ++ errs5 ++ errs6 ++ errs7 ++ errs8 ++ errs9 ++ errs10

/-! ### Parsed-content models of the renderer outputs

Each definition below gives the parsed YAML content of the corresponding
renderer of `render_ftl.py` / `render_starlight.py` — the records the
verifier re-reads, with serialisation and `yaml.safe_load` elided. -/

/-- Sort order of the per-category document listing in the Starlight
renderers: `sorted(docs, key=lambda doc: doc.title.casefold())`
(`casefold` coincides with lowercasing on this ASCII pipeline). -/
def titleLe (d1 d2 : PaperDocument) : Prop :=
  strLeB (pyLower d1.title) (pyLower d2.title) = true

instance : DecidableRel titleLe := fun d1 d2 => instDecidableEqBool _ _

/-- The `by_category` grouping of the Starlight renderers: the documents of
one primary category, title-sorted. -/
def docsForCategory (documents : List PaperDocument) (raw : String) :
    List PaperDocument :=
  List.insertionSort titleLe
    (documents.filter (fun d => primary_category d == raw))

/-- `entity_id_for`. -/
def entity_id_for (doc : PaperDocument) : String :=
  let key := doc.fluent_key
  let key := if pyStartsWith key "doc-text-printer-"
    then String.mk (key.data.drop "doc-text-printer-".length) else key
  let components := (splitOnChar '-' key.data).filter (fun part => part ≠ "")
  let filtered := components.filter (fun part => !part.data.all Char.isDigit)
  let filtered_key := if filtered.isEmpty then key
    else String.intercalate "-" filtered
  "PrintedDocument" ++ to_pascal_case filtered_key

/-- `recipe_id_for`. -/
def recipe_id_for (entity_id : String) : String := entity_id ++ "Recipe"

/-- Parsed content of `render_documents_yaml`: one `{key, name, categories}`
record per document in `(categories, slug)` order; the single category value
is the PascalCase form of the primary key (or label fallbacks). -/
def documentsYamlEntries (documents : List PaperDocument) : List DocEntry :=
  (List.insertionSort docLe documents).map (fun d =>
    { key := some d.fluent_key
      categories :=
        if d.categories.isEmpty then []
        else
          let primary := d.categories.headD ""
          let primary_key := normalise_component primary
          let primary_id := if primary_key ≠ "" then to_pascal_case primary_key
            else to_pascal_case primary
          [if primary_id ≠ "" then primary_id else primary] })

/-- Parsed content of `render_starlight_documents`. -/
def entityEntries (documents : List PaperDocument)
    (categories : List CategoryInfo) : List EntityEntry :=
  (categories.map (fun info =>
    (docsForCategory documents info.raw_label).map (fun d =>
      ({ type := "entity", id := some (entity_id_for d),
         components := [{ type := "Paper", content := some d.fluent_key }] }
        : EntityEntry)))).flatten

/-- Parsed content of `render_starlight_recipes`. -/
def recipeEntries (documents : List PaperDocument)
    (categories : List CategoryInfo)
    (recipe_categories : List (String × String)) : List RecipeEntry :=
  (categories.map (fun info =>
    (docsForCategory documents info.raw_label).map (fun d =>
      ({ type := "latheRecipe", id := some (recipe_id_for (entity_id_for d)),
         result := some (entity_id_for d),
         categories := [(alookup recipe_categories info.raw_label).getD info.lathe_id] }
        : RecipeEntry)))).flatten

/-- Parsed content of `render_recipe_pack`. -/
def packEntries (documents : List PaperDocument)
    (categories : List CategoryInfo) (pack_id : String) : List PackEntry :=
  [{ type := "latheRecipePack", id := some pack_id,
     recipes := (categories.map (fun info =>
       (docsForCategory documents info.raw_label).map
         (fun d => recipe_id_for (entity_id_for d)))).flatten }]

/-- Parsed content of `render_lathe_category_prototypes`. -/
def catProtoEntries (categories : List CategoryInfo) : List CatProtoEntry :=
  categories.map (fun info =>
    { type := "latheCategory", id := some info.lathe_id,
      name := some ("lathe-category-" ++ info.lathe_key) })

/-- The text lines of `render_lathe_categories` (the category Fluent file). -/
def latheCategoriesFtlLines (categories : List CategoryInfo) : List String :=
  "# Auto-generated by tools/render_starlight.py. Do not edit manually."
    :: (categories.map (fun info =>
        "lathe-category-" ++ info.lathe_key ++ " = " ++ info.lathe_label)
      ++ [""])

/-! ### Claim C4 -/

/-- The two-document tree of the repository's own
`test_verify_bundle_accepts_valid_outputs`. -/
def c4Tree : List PFile :=
  [⟨["Identity", "id-replacement.paper"], some "# ID Replacement\n[body]\n"⟩,
   ⟨["Security", "incident.paper"], some "# Incident Report\n[body]\n"⟩]

def c4Docs : List PaperDocument :=
  [⟨["Identity", "id-replacement.paper"], ["Identity"], ["identity"],
     "id-replacement", "id-replacement", "ID Replacement", ["[body]", ""]⟩,
   ⟨["Security", "incident.paper"], ["Security"], ["security"],
     "incident", "incident", "Incident Report", ["[body]", ""]⟩]

def c4Cats : List CategoryInfo := build_category_infos c4Docs []

/-- The verifier run on the bundle generated from `c4Tree`, exactly as the
repository's `test_verify_bundle_accepts_valid_outputs` assembles it. -/
def c4Verify (catProtos : List CatProtoEntry) : List String :=
  verify_bundle "dist/documents.yml" "dist/starlight/documents.yml"
    "dist/starlight/printer.yml" "dist/starlight/categories.yml"
    (documentsYamlEntries c4Docs)
    (renderFtlLines c4Docs)
    (entityEntries c4Docs c4Cats)
    (recipeEntries c4Docs c4Cats [])
    (packEntries c4Docs c4Cats "TestDocs")
    catProtos
    (latheCategoriesFtlLines c4Cats)

/-- C4 (code bug): on the bundle generated from its own test fixture the
verifier does NOT return the empty list — `render_documents_yaml` stores the
bare PascalCase category (`"Identity"`, `"Security"`) while the
`latheCategory` ids carry the `Document` prelude (`"DocumentIdentity"`,
`"DocumentSecurity"`), so check 5 fires on every consistent generated
bundle, contradicting `test_verify_bundle_accepts_valid_outputs`
(`assert errors == []`).  Removing the last category prototype (the test's
mutation) adds the expected undefined-categories message but also an
unused-Fluent-definition message, so the mutation is not precise either. -/
theorem C4_generated_bundle_not_verified_clean :
    discover_documents "docs" c4Tree = .ok c4Docs
    ∧ c4Verify (catProtoEntries c4Cats) =
        ["documents.yml references undefined lathe categories: Identity, Security"]
    ∧ c4Verify ((catProtoEntries c4Cats).dropLast) =
        ["documents.yml references undefined lathe categories: Identity, Security",
         "lathe recipes reference undefined categories: DocumentSecurity",
         "lathe-categories.ftl defines unused categories: lathe-category-document-security"] := by
  refine ⟨by decide, by decide, by decide⟩

end Paperwork
